import Mathlib

/-!
Verification development for the SMFViewer repository.

The parser (`pysmf.py`, `SMFParser.parse`) and the OBJ exporter
(`pysmf_export.py`, `export_to_obj`) are shallowly embedded below.
Lines are modelled as `List Char`; Python strings arriving from the file
are the pre-stripped, non-empty lines that the source computes with
`[ln.strip() for ln in f if ln.strip()]`.  Python `float` values are
modelled as exact scaled decimals (`FVal`, with rational value `toRat`):
no claim under verification depends on IEEE rounding, only on which
strings are accepted and on which fields flow where.  `float`'s special literals (`inf`, `nan`, digit
underscores) are outside the modelled grammar; no claim touches them.
Character predicates (`str.isdigit`, `str.isalpha`, `str.upper`) are
modelled at ASCII, which covers every construct the format and the
claims exercise.
-/

/-- Lines of the input file, after the source's `strip()` preprocessing. -/
abbrev Line := List Char

/-- Whitespace as stripped by Python `str.strip()` (ASCII range). -/
def pyWS (c : Char) : Bool :=
  c = ' ' || c = '\t' || c = '\n' || c = '\r' || c = Char.ofNat 11 || c = Char.ofNat 12

/-- Drop leading whitespace, the first half of Python `str.strip()`. -/
def ldropWS (l : Line) : Line := l.dropWhile pyWS

/-- Drop trailing whitespace, the second half of Python `str.strip()`. -/
def rdropWS (l : Line) : Line := (l.reverse.dropWhile pyWS).reverse

/-- Python `str.strip()`. -/
def pyStrip (l : Line) : Line := rdropWS (ldropWS l)

/-- Python `str.split(sep)` with an explicit separator: every occurrence
separates, empty segments are kept, `"".split(sep) == [""]`. -/
def pySplitOn (sep : Char) : Line → List Line
  | [] => [[]]
  | c :: rest =>
    if c = sep then [] :: pySplitOn sep rest
    else
      match pySplitOn sep rest with
      | s :: t => (c :: s) :: t
      | [] => [[c]]

/-- Value of a (non-empty, all-digit) run of ASCII digits. -/
def digitsToNat (ds : List Char) : Nat :=
  ds.foldl (fun a c => a * 10 + (c.toNat - 48)) 0

/-- Optional sign prefix, shared by Python `int()` and `float()`. -/
def readSign (l : Line) : Int × Line :=
  match l with
  | c :: r => if c = '+' then (1, r) else if c = '-' then (-1, r) else (1, l)
  | [] => (1, l)

/-- Python `int(s)` on a decimal string: strip whitespace, optional single
sign, then a non-empty run of digits.  Returns `none` where Python raises
`ValueError`. -/
def pyInt? (l : Line) : Option Int :=
  let t := pyStrip l
  let sg := readSign t
  if sg.2 ≠ [] ∧ sg.2.all Char.isDigit then some (sg.1 * digitsToNat sg.2) else none

/-- Exponent suffix of a Python float literal: either nothing, or
`e`/`E`, an optional sign and a non-empty digit run. -/
def parseExp : Line → Option Int
  | [] => some 0
  | c :: r =>
    if c = 'e' ∨ c = 'E' then
      let sg := readSign r
      if sg.2 ≠ [] ∧ sg.2.all Char.isDigit then some (sg.1 * digitsToNat sg.2) else none
    else none

/-- Value of a finite Python float, kept as an exact scaled decimal
`num / 10 ^ den`.  Structural representation (no normalisation) keeps
every operation kernel-computable; `toRat` below gives its value in `ℚ`
and ties the exporter's flip to honest rational arithmetic. -/
structure FVal where
  num : Int
  den : Nat
deriving DecidableEq, Repr

/-- The decimal zero, `float("0")`. -/
def fzero : FVal := { num := 0, den := 0 }

/-- The literal `1.0 - x` of the exporter, over the scaled-decimal
representation: `(10^den - num) / 10^den`. -/
def oneMinusF (x : FVal) : FVal := { num := (10 ^ x.den : Int) - x.num, den := x.den }

/-- Rational value of a scaled decimal. -/
def toRat (x : FVal) : ℚ := (x.num : ℚ) / (10 : ℚ) ^ x.den

/-- Python `float(s)` on the decimal grammar `[sign] (digits [. digits] | . digits)
[exponent]` after stripping whitespace, with the value
`sign * digits(ip ++ fp) * 10 ^ (exp - |fp|)` kept as an exact scaled
decimal.  Returns `none` where Python raises `ValueError`. -/
def pyFloat? (l : Line) : Option FVal :=
  let t := pyStrip l
  let sg := readSign t
  let ip := sg.2.takeWhile Char.isDigit
  let r1 := sg.2.dropWhile Char.isDigit
  let withExp : Line → Line → Line → Option FVal := fun ipart fpart rest =>
    if ipart = [] ∧ fpart = [] then none
    else
      (parseExp rest).map fun e =>
        let m : Int := sg.1 * (digitsToNat (ipart ++ fpart) : Int)
        let shift : Int := e - fpart.length
        if 0 ≤ shift then { num := m * (10 ^ shift.toNat : Int), den := 0 }
        else { num := m, den := (-shift).toNat }
  match r1 with
  | '.' :: r2 => withExp ip (r2.takeWhile Char.isDigit) (r2.dropWhile Char.isDigit)
  | _ => if ip = [] then none else withExp ip [] r1

/-- Evaluation of a Python list comprehension over fallible `f`:
fields are converted left to right and any failure fails the whole
row. -/
def mapO {γ : Type} (f : Line → Option γ) : List Line → Option (List γ)
  | [] => some []
  | x :: xs =>
    match f x, mapO f xs with
    | some y, some ys => some (y :: ys)
    | _, _ => none

/-- Evaluation of the list comprehension `[float(x) for x in parts]`:
any failing field fails the whole row. -/
def pyFloats? (parts : List Line) : Option (List FVal) := mapO pyFloat? parts

/-- Evaluation of the list comprehension `[int(x) for x in parts]`. -/
def pyInts? (parts : List Line) : Option (List Int) := mapO pyInt? parts

/-- Python `str.isdigit()` at ASCII: non-empty, all decimal digits. -/
def pyIsDigit (l : Line) : Bool := !l.isEmpty && l.all Char.isDigit

/-- Python `str.isalpha()` at ASCII: non-empty, all letters. -/
def pyIsAlpha (l : Line) : Bool := !l.isEmpty && l.all Char.isAlpha

/-- Python `line.lower().startswith('v')`: the first character is `v` or `V`. -/
def startsLowerV : Line → Bool
  | c :: _ => c = 'v' || c = 'V'
  | [] => false

/-- Python `line.startswith(pre)`. -/
def pyStartsWith (pre l : Line) : Bool := pre.isPrefixOf l

/-- The reserved header token `C3DModel`. -/
def c3dTag : Line := "C3DModel".toList

/-- Head test for one position of the `".TIF" in line.upper()` search:
the suffix starts with a dot followed by `TIF` in either case. -/
def tifPrefix : Line → Bool
  | c0 :: c1 :: c2 :: c3 :: _ =>
    c0 = '.' && (c1 = 'T' || c1 = 't') && (c2 = 'I' || c2 = 'i') && (c3 = 'F' || c3 = 'f')
  | _ => false

/-- Python `".TIF" in line.upper()` at ASCII: a dot followed by `TIF` in
either case appears somewhere in the line. -/
def containsTIF (l : Line) : Bool := l.tails.any tifPrefix

/-- The double-quote character, removed by `_clean_tex`. -/
def quoteChar : Char := Char.ofNat 34

/-- Last element of a split (Python `[-1]`); splits are never empty. -/
def lastSeg (segs : List Line) : Line := segs.getLastD []

/-- Keep every character other than a double quote, as
`line.replace('"', '')`. -/
def notQuote (c : Char) : Bool := !(c == quoteChar)

/-- Embedding of `SMFParser._clean_tex`: remove double quotes, strip,
take the text after the last comma, strip again. -/
def cleanTex (l : Line) : Line :=
  pyStrip (lastSeg (pySplitOn ',' (pyStrip (l.filter notQuote))))

/-- Structural role of one line, as decided by the `if`/`elif` chain of
`SMFParser.parse` (source lines 68–134).  `versionNone` mirrors the
`self.version is None` conjunct of the version branch. -/
inductive LClass where
  | header
  | versionCandidate
  | submeshStart
  | vertexMarker
  | textureRef
  | csvRow (n : Nat)
deriving DecidableEq, Repr

/-- The classification chain of `SMFParser.parse`, in source order:
header prefix, then bare integer (only while the version is unset), then
all-alphabetic, then `v`/`V` start, then `.TIF` containment, then comma
splitting. -/
def classify (versionNone : Bool) (l : Line) : LClass :=
  if pyStartsWith c3dTag l then .header
  else if versionNone && pyIsDigit l then .versionCandidate
  else if pyIsAlpha l then .submeshStart
  else if startsLowerV l then .vertexMarker
  else if containsTIF l then .textureRef
  else .csvRow (pySplitOn ',' l).length

/-- One submesh dictionary.  `counts = none` models the `vertex_count` /
`face_count` keys being absent; `counts = some none` models both keys
present and `None`; `counts = some (some (vc, fc))` models resolved
hints. -/
structure Submesh where
  name : Line
  vertices : List (List FVal)
  faces : List (List Int)
  textures : List Line
  counts : Option (Option (Int × Int))
deriving DecidableEq, Repr

/-- The instance fields of `SMFParser` (`self.vertices`, `self.submeshes`,
`self.textures`, `self.version`, `self.header`).  The returned dict of
`parse` exposes exactly these fields, so the same structure serves as the
Model.  `headerType` models whether `header["type"] = "C3DModel"` was set. -/
structure Store where
  vertices : List (List FVal)
  submeshes : List Submesh
  textures : List Line
  version : Option Int
  headerType : Bool
deriving DecidableEq, Repr

/-- A freshly constructed `SMFParser()` (its `__init__`). -/
def initStore : Store :=
  { vertices := [], submeshes := [], textures := [], version := none, headerType := false }

/-- Loop state of `parse`: the instance fields plus the local
`current_submesh`. -/
structure LoopSt where
  store : Store
  current : Option Submesh
deriving DecidableEq, Repr

/-- Uncaught Python exceptions that can escape the embedded code. -/
inductive PyErr where
  | typeError
  | indexError
deriving DecidableEq, Repr

deriving instance DecidableEq for Except

/-- Append preserving first-seen order, as the `if x not in xs: xs.append(x)`
idiom of the texture branches. -/
def addIfNew (xs : List Line) (x : Line) : List Line :=
  if x ∈ xs then xs else xs ++ [x]

/-- The count-hint scan of source lines 138–152: over indices from
`max(0, i-6)` up to but excluding `min(i+3, len(lines))`, find the first
line splitting into at least 4 comma fields whose fields 0 and 2 both
parse as integers. -/
def findCounts (lines : List Line) (i : Nat) : Option (Int × Int) :=
  let lo := i - 6
  let hi := min (i + 3) lines.length
  (List.range' lo (hi - lo)).findSome? fun j =>
    let p := pySplitOn ',' (lines.getD j [])
    if 4 ≤ p.length then
      match pyInt? (p.getD 0 []), pyInt? (p.getD 2 []) with
      | some vc, some fc => some (vc, fc)
      | _, _ => none
    else none

/-- Hint population (source lines 137–155): runs on any line that reaches
the CSV stage, only while a submesh is open and its hint keys are absent;
it stores the scan's result (both keys become present even on failure). -/
def applyHints (lines : List Line) (i : Nat) : Option Submesh → Option Submesh
  | some sm =>
    if sm.counts = none then some { sm with counts := some (findCounts lines i) } else some sm
  | none => none

/-- One iteration of the `while i < len(lines)` loop of `SMFParser.parse`,
for the line at index `i`.  The only uncaught exception is the `TypeError`
from `current_submesh["vertices"].append(v)` when `current_submesh` is
`None` and all 8 fields parsed as floats (source lines 158–164: the
`except ValueError` clause does not catch it, and `self.vertices` is not
reached). -/
def stepLine (lines : List Line) (i : Nat) (st : LoopSt) : Except PyErr LoopSt :=
  let l := lines.getD i []
  match classify st.store.version.isNone l with
  | .header => .ok { st with store := { st.store with headerType := true } }
  | .versionCandidate => .ok { st with store := { st.store with version := pyInt? l } }
  | .submeshStart =>
    let closed :=
      match st.current with
      | some c => st.store.submeshes ++ [c]
      | none => st.store.submeshes
    .ok { store := { st.store with submeshes := closed },
          current := some { name := l, vertices := [], faces := [], textures := [], counts := none } }
  | .vertexMarker => .ok st
  | .textureRef =>
    let tex := cleanTex l
    match st.current with
    | some sm =>
      if sm.vertices = [] ∧ tex ≠ [] then
        .ok { store := { st.store with textures := addIfNew st.store.textures tex },
              current := some { sm with textures := addIfNew sm.textures tex } }
      else .ok st
    | none =>
      if tex ≠ [] ∧ tex ∉ st.store.textures then
        .ok { st with store := { st.store with textures := st.store.textures ++ [tex] } }
      else .ok st
  | .csvRow n =>
    let parts := pySplitOn ',' l
    let cur := applyHints lines i st.current
    if n = 8 then
      match pyFloats? parts with
      | some v =>
        match cur with
        | some sm =>
          .ok { store := { st.store with vertices := st.store.vertices ++ [v] },
                current := some { sm with vertices := sm.vertices ++ [v] } }
        | none => .error PyErr.typeError
      | none => .ok { st with current := cur }
    else if n = 3 then
      match pyInts? parts with
      | some f =>
        match cur with
        | some sm => .ok { st with current := some { sm with faces := sm.faces ++ [f] } }
        | none => .ok { st with current := cur }
      | none => .ok { st with current := cur }
    else .ok { st with current := cur }

/-- The parse loop, with fuel counting the remaining iterations; `parse`
supplies `lines.length`, which is exact since every branch advances `i`
by one. -/
def runFrom (lines : List Line) : Nat → Nat → LoopSt → Except PyErr LoopSt
  | 0, _, st => .ok st
  | fuel + 1, i, st =>
    if i < lines.length then
      match stepLine lines i st with
      | .ok st' => runFrom lines fuel (i + 1) st'
      | .error e => .error e
    else .ok st

/-- Deduplication keeping first occurrences, Python
`list(dict.fromkeys(xs))`. -/
def dedupFirst : List Line → List Line := go []
where
  /-- Worker carrying the set of already-kept names. -/
  go (seen : List Line) : List Line → List Line
  | [] => []
  | a :: rest => if a ∈ seen then go seen rest else a :: go (a :: seen) rest

/-- End of `parse` (source lines 182–189): close the final submesh, then
deduplicate the submesh-level and model-level texture lists. -/
def finalizeSt (st : LoopSt) : Store :=
  let s1 :=
    match st.current with
    | some c => { st.store with submeshes := st.store.submeshes ++ [c] }
    | none => st.store
  { s1 with
    submeshes := s1.submeshes.map fun sm => { sm with textures := dedupFirst sm.textures },
    textures := dedupFirst s1.textures }

/-- A call `parser.parse(path)` on an instance whose fields currently hold
`s` (for a fresh instance, `s = initStore`), applied to the stripped
non-empty lines of the file.  The returned dict and the instance's
post-call fields coincide, so the result doubles as both. -/
def parseFrom (s : Store) (lines : List Line) : Except PyErr Store :=
  (runFrom lines lines.length 0 { store := s, current := none }).map finalizeSt

/-- Parsing with a fresh `SMFParser()` instance, the usage of every caller
in the repository. -/
def parse (lines : List Line) : Except PyErr Store := parseFrom initStore lines

/-- Shorthand for building concrete input lines. -/
def toL (s : String) : Line := s.toList

/-- One line of OBJ output, abstracting the text written by
`export_to_obj`; decimal formatting of numbers is not modelled. -/
inductive ObjItem where
  | fileHeader
  | objName (n : Line)
  | vPos (x y z : FVal)
  | vt (u v : FVal)
  | facePlain (a b c : Int)
  | faceTex (a b c : Int)
deriving DecidableEq, Repr

/-- The width `np.array(sm['vertices']).shape[1]`: defined only when the
vertex list is non-empty and rectangular; otherwise the shape tuple has
no second component and `shape[1]` raises `IndexError`. -/
def rowLen? : List (List FVal) → Option Nat
  | [] => none
  | v :: rest => if rest.all fun w => w.length = v.length then some v.length else none

/-- Output of `export_to_obj` for one submesh at a given cumulative
vertex offset (source lines 36–62).  The `o` line, the `v` loop, the
conditional `vt` loop, then the face loop whose `try` skips any face that
does not unpack into three indices.  `IndexError` arises from
`verts.shape[1]` on an empty or ragged vertex list, or from `v[0..2]` on
vertices shorter than 3 fields. -/
def exportSubmesh (off : Nat) (sm : Submesh) : Except PyErr (List ObjItem) :=
  match rowLen? sm.vertices with
  | none => .error PyErr.indexError
  | some w =>
    if w < 3 then .error PyErr.indexError
    else
      let vls := sm.vertices.map fun v => ObjItem.vPos (v.getD 0 fzero) (v.getD 1 fzero) (v.getD 2 fzero)
      let vts :=
        if 8 ≤ w then sm.vertices.map fun v => ObjItem.vt (v.getD 6 fzero) (oneMinusF (v.getD 7 fzero))
        else []
      let mkFace := fun (a b c : Int) =>
        if 8 ≤ w then ObjItem.faceTex (a + 1 + off) (b + 1 + off) (c + 1 + off)
        else ObjItem.facePlain (a + 1 + off) (b + 1 + off) (c + 1 + off)
      let fls := sm.faces.filterMap fun f =>
        match f with
        | [a, b, c] => some (mkFace a b c)
        | _ => none
      .ok (ObjItem.objName sm.name :: (vls ++ vts ++ fls))

/-- The submesh loop of `export_to_obj`, threading
`vertex_offset += len(verts)`. -/
def exportGo (off : Nat) : List Submesh → Except PyErr (List ObjItem)
  | [] => .ok []
  | sm :: rest =>
    match exportSubmesh off sm with
    | .error e => .error e
    | .ok items =>
      match exportGo (off + sm.vertices.length) rest with
      | .error e => .error e
      | .ok tail => .ok (items ++ tail)

/-- Embedding of `export_to_obj` applied to an already-parsed model. -/
def exportObj (m : Store) : Except PyErr (List ObjItem) :=
  (exportGo 0 m.submeshes).map fun items => ObjItem.fileHeader :: items

/-- Modelled from the claim's words (C8), for comparison with
`exportObj`: submeshes in `Model.submeshes` order; vertex positions from
fields 0..2; texture coordinates from fields 6 and 7 with the V
coordinate flipped as `1 - v`, only when the vertices have at least 8
fields; each face as its stored zero-based indices plus one plus the
cumulative vertex count of all previously emitted submeshes. -/
def exportSpecGo (off : Nat) : List Submesh → List ObjItem
  | [] => []
  | sm :: rest =>
    let hasUV := sm.vertices.all fun v => 8 ≤ v.length
    let chunk :=
      ObjItem.objName sm.name ::
        (sm.vertices.map (fun v => ObjItem.vPos (v.getD 0 fzero) (v.getD 1 fzero) (v.getD 2 fzero)) ++
         (if hasUV then sm.vertices.map fun v => ObjItem.vt (v.getD 6 fzero) (oneMinusF (v.getD 7 fzero))
          else []) ++
         sm.faces.map fun f =>
           if hasUV then
             ObjItem.faceTex (f.getD 0 0 + 1 + off) (f.getD 1 0 + 1 + off) (f.getD 2 0 + 1 + off)
           else
             ObjItem.facePlain (f.getD 0 0 + 1 + off) (f.getD 1 0 + 1 + off) (f.getD 2 0 + 1 + off))
    chunk ++ exportSpecGo (off + sm.vertices.length) rest

/-- Claim-side description of the whole OBJ output (see `exportSpecGo`). -/
def exportSpec (m : Store) : List ObjItem :=
  ObjItem.fileHeader :: exportSpecGo 0 m.submeshes

/-- A submesh with its hint keys erased, used to state that a parsing
step touched nothing but the count hints. -/
def eraseHints (sm : Submesh) : Submesh := { sm with counts := none }

/-- Vertex list of the optional current submesh. -/
def optVerts : Option Submesh → List (List FVal)
  | some c => c.vertices
  | none => []

/-- Tracks one submesh slot through the parse loop: either slot `k` is
already closed and satisfies `p`, or it is the currently open submesh
(and `k` is the next slot to be closed). -/
def slotP (k : Nat) (p : Submesh → Prop) (s : LoopSt) : Prop :=
  (∃ h : k < s.store.submeshes.length, p (s.store.submeshes.get ⟨k, h⟩)) ∨
  (s.store.submeshes.length = k ∧ ∃ c, s.current = some c ∧ p c)

/-! ### Generic facts about the Python string primitives -/

theorem pySplitOn_ne_nil (sep : Char) (l : Line) : pySplitOn sep l ≠ [] := by
  cases l with
  | nil => simp [pySplitOn]
  | cons c rest =>
    simp only [pySplitOn]
    split
    · simp
    · split <;> simp

theorem pySplitOn_append (sep : Char) (x y : Line) :
    pySplitOn sep (x ++ sep :: y) = pySplitOn sep x ++ pySplitOn sep y := by
  induction x with
  | nil => simp [pySplitOn]
  | cons c rest ih =>
    by_cases hc : c = sep
    · subst hc
      simp [pySplitOn, ih]
    · simp only [List.cons_append, pySplitOn, if_neg hc, List.append_eq]
      rw [ih]
      cases h : pySplitOn sep rest with
      | nil => exact absurd h (pySplitOn_ne_nil sep rest)
      | cons s t => simp

theorem pySplitOn_of_not_mem (sep : Char) (l : Line) (h : sep ∉ l) : pySplitOn sep l = [l] := by
  induction l with
  | nil => rfl
  | cons c rest ih =>
    have hc : ¬ c = sep := fun hc => h (hc ▸ List.mem_cons_self c rest)
    have hr : sep ∉ rest := fun hr => h (List.mem_cons_of_mem c hr)
    simp only [pySplitOn, if_neg hc, ih hr]

theorem sep_mem_of_split_len (sep : Char) (l : Line) (h : 2 ≤ (pySplitOn sep l).length) :
    sep ∈ l := by
  by_contra h'
  rw [pySplitOn_of_not_mem sep l h'] at h
  simp at h

theorem mem_dedupFirst_go (seen l : List Line) (a : Line) :
    a ∈ dedupFirst.go seen l ↔ a ∈ l ∧ a ∉ seen := by
  induction l generalizing seen with
  | nil => simp [dedupFirst.go]
  | cons b rest ih =>
    simp only [dedupFirst.go]
    split
    · rename_i hb
      rw [ih]
      constructor
      · rintro ⟨h1, h2⟩; exact ⟨List.mem_cons_of_mem b h1, h2⟩
      · rintro ⟨h1, h2⟩
        rcases List.mem_cons.mp h1 with rfl | h1
        · exact absurd hb h2
        · exact ⟨h1, h2⟩
    · rename_i hb
      simp only [List.mem_cons, ih, List.mem_cons, not_or]
      constructor
      · rintro (rfl | ⟨h1, h2, h3⟩)
        · exact ⟨Or.inl rfl, hb⟩
        · exact ⟨Or.inr h1, h3⟩
      · rintro ⟨rfl | h1, h2⟩
        · exact Or.inl rfl
        · by_cases hab : a = b
          · exact Or.inl hab
          · exact Or.inr ⟨h1, hab, h2⟩

theorem dedupFirst_go_nodup (seen l : List Line) : (dedupFirst.go seen l).Nodup := by
  induction l generalizing seen with
  | nil => simp [dedupFirst.go]
  | cons b rest ih =>
    simp only [dedupFirst.go]
    split
    · exact ih seen
    · refine List.nodup_cons.mpr ⟨fun hmem => ?_, ih (b :: seen)⟩
      exact ((mem_dedupFirst_go _ _ _).mp hmem).2 (List.mem_cons_self b seen)

theorem mem_dedupFirst (l : List Line) (a : Line) : a ∈ dedupFirst l ↔ a ∈ l := by
  simp [dedupFirst, mem_dedupFirst_go]

theorem dedupFirst_nodup (l : List Line) : (dedupFirst l).Nodup := dedupFirst_go_nodup [] l

theorem getLastD_append (l1 l2 : List Line) (d : Line) (h : l2 ≠ []) :
    (l1 ++ l2).getLastD d = l2.getLastD d := by
  cases l2 with
  | nil => exact absurd rfl h
  | cons b t =>
    induction l1 generalizing d with
    | nil => rfl
    | cons c r ih =>
      rw [List.cons_append, List.getLastD_cons, ih c, List.getLastD_cons, List.getLastD_cons]

theorem getD_middle (pre post : List Line) (x : Line) :
    (pre ++ x :: post).getD pre.length [] = x := by
  induction pre with
  | nil => rfl
  | cons c r ih => simpa using ih

theorem rdropWS_cons (c : Char) (y : Line) :
    rdropWS (c :: y) =
      if rdropWS y = [] then (if pyWS c then [] else [c]) else c :: rdropWS y := by
  simp only [rdropWS, List.reverse_cons, List.dropWhile_append]
  by_cases h : (y.reverse.dropWhile pyWS).isEmpty
  · have h' : y.reverse.dropWhile pyWS = [] := List.isEmpty_iff.mp h
    rw [h, h']
    cases hc : pyWS c <;> simp [List.dropWhile, hc]
  · have h' : y.reverse.dropWhile pyWS ≠ [] := fun hh => h (List.isEmpty_iff.mpr hh)
    have h'' : (y.reverse.dropWhile pyWS).reverse ≠ [] := by simpa using h'
    simp [h, h'']

theorem rdropWS_eq_nil_iff (y : Line) : rdropWS y = [] ↔ ∀ c ∈ y, pyWS c := by
  simp only [rdropWS, List.reverse_eq_nil_iff, List.dropWhile_eq_nil_iff, List.mem_reverse]

theorem ldropWS_eq_nil_iff (y : Line) : ldropWS y = [] ↔ ∀ c ∈ y, pyWS c := by
  simp only [ldropWS, List.dropWhile_eq_nil_iff]

theorem dropWhile_pyWS_idem (l : Line) :
    (l.dropWhile pyWS).dropWhile pyWS = l.dropWhile pyWS := by
  induction l with
  | nil => rfl
  | cons c r ih =>
    by_cases h : pyWS c
    · simp [List.dropWhile_cons, h, ih]
    · simp [List.dropWhile_cons, h]

theorem rdropWS_idem (y : Line) : rdropWS (rdropWS y) = rdropWS y := by
  simp only [rdropWS, List.reverse_reverse, dropWhile_pyWS_idem]

theorem mem_rdropWS (y : Line) (a : Char) (h : a ∈ rdropWS y) : a ∈ y := by
  simp only [rdropWS, List.mem_reverse] at h
  exact List.mem_reverse.mp ((List.dropWhile_sublist pyWS).mem h)

theorem ldropWS_cons_ws {c : Char} (x : Line) (hw : pyWS c = true) :
    ldropWS (c :: x) = ldropWS x := by
  simp [ldropWS, List.dropWhile_cons, hw]

theorem ldropWS_cons_not {c : Char} (x : Line) (hw : pyWS c = false) :
    ldropWS (c :: x) = c :: x := by
  simp [ldropWS, List.dropWhile_cons, hw]

theorem rdropWS_singleton_not {c : Char} (hw : pyWS c = false) : rdropWS [c] = [c] := by
  rw [show ([c] : Line) = c :: ([] : Line) from rfl, rdropWS_cons]
  simp [rdropWS, hw]

theorem pyStrip_rdropWS (b : Line) : pyStrip (rdropWS b) = pyStrip b := by
  induction b with
  | nil => rfl
  | cons c b' ih =>
    rw [rdropWS_cons]
    by_cases hnil : rdropWS b' = []
    · rw [if_pos hnil]
      by_cases hw : pyWS c
      · rw [if_pos hw]
        have hall : ∀ x ∈ b', pyWS x := (rdropWS_eq_nil_iff b').mp hnil
        have h2 : ldropWS (c :: b') = [] := by
          refine (ldropWS_eq_nil_iff _).mpr ?_
          intro x hx
          rcases List.mem_cons.mp hx with rfl | hx
          · exact hw
          · exact hall x hx
        simp only [pyStrip, h2]
        rfl
      · rw [if_neg hw]
        have hw' : pyWS c = false := Bool.eq_false_iff.mpr hw
        have h2 : ldropWS (c :: b') = c :: b' := ldropWS_cons_not b' hw'
        have h3 : ldropWS [c] = [c] := ldropWS_cons_not [] hw'
        simp only [pyStrip, h2, h3]
        rw [rdropWS_singleton_not hw', rdropWS_cons, if_pos hnil, if_neg hw]
    · rw [if_neg hnil]
      by_cases hw : pyWS c
      · have hw' : pyWS c = true := hw
        simp only [pyStrip, ldropWS_cons_ws _ hw']
        simp only [pyStrip] at ih
        exact ih
      · have hw' : pyWS c = false := Bool.eq_false_iff.mpr hw
        simp only [pyStrip, ldropWS_cons_not _ hw']
        rw [rdropWS_cons c (rdropWS b'), rdropWS_idem, if_neg hnil,
          rdropWS_cons c b', if_neg hnil]

theorem rdropWS_append (x y : Line) :
    rdropWS (x ++ y) = if rdropWS y = [] then rdropWS x else x ++ rdropWS y := by
  simp only [rdropWS, List.reverse_append, List.dropWhile_append]
  by_cases h : (y.reverse.dropWhile pyWS).isEmpty
  · have h' : y.reverse.dropWhile pyWS = [] := List.isEmpty_iff.mp h
    simp [h, h']
  · have h' : y.reverse.dropWhile pyWS ≠ [] := fun hh => h (List.isEmpty_iff.mpr hh)
    have h'' : (y.reverse.dropWhile pyWS).reverse ≠ [] := by simpa using h'
    simp [h, h'']

theorem rdropWS_cons_not {c : Char} (y : Line) (hw : pyWS c = false) :
    rdropWS (c :: y) = c :: rdropWS y := by
  rw [rdropWS_cons]
  by_cases hnil : rdropWS y = []
  · rw [if_pos hnil, if_neg (by simp [hw]), hnil]
  · rw [if_neg hnil]

theorem cleanTex_core (A B : Line) (hB : ',' ∉ B) :
    pyStrip (lastSeg (pySplitOn ',' (rdropWS (A ++ ',' :: B)))) = pyStrip B := by
  have h1 : rdropWS (',' :: B) = ',' :: rdropWS B := rdropWS_cons_not B (by decide)
  have h2 : rdropWS (A ++ ',' :: B) = A ++ ',' :: rdropWS B := by
    rw [rdropWS_append, h1, if_neg (List.cons_ne_nil ',' (rdropWS B))]
  rw [h2, pySplitOn_append]
  unfold lastSeg
  rw [getLastD_append _ _ _ (pySplitOn_ne_nil ',' (rdropWS B))]
  rw [pySplitOn_of_not_mem ',' (rdropWS B) (fun hm => hB (mem_rdropWS _ _ hm))]
  exact pyStrip_rdropWS B

/-- C10: for every texture-reference line containing at least one comma,
`_clean_tex` stores only the text after the last comma, with double
quotes removed and surrounding whitespace trimmed; everything before the
last comma is discarded.  The decomposition `pre ++ ',' :: suf` with
`',' ∉ suf` makes that comma the last one, and the result depends on
`suf` alone. -/
theorem c10_clean_tex_after_last_comma (pre suf : Line) (h : ',' ∉ suf) :
    cleanTex (pre ++ ',' :: suf) = pyStrip (suf.filter notQuote) := by
  have hfil : (pre ++ ',' :: suf).filter notQuote =
      pre.filter notQuote ++ ',' :: suf.filter notQuote := by
    rw [List.filter_append, List.filter_cons, if_pos (by decide : notQuote ',' = true)]
  have hB : ',' ∉ suf.filter notQuote := fun hmem => h (List.mem_filter.mp hmem).1
  unfold cleanTex
  rw [hfil]
  show pyStrip (lastSeg (pySplitOn ','
      (rdropWS (ldropWS (pre.filter notQuote ++ ',' :: suf.filter notQuote))))) = _
  have hcomma : pyWS ',' = false := by decide
  rw [ldropWS, List.dropWhile_append]
  by_cases hA : ((pre.filter notQuote).dropWhile pyWS).isEmpty
  · rw [if_pos hA]
    rw [show List.dropWhile pyWS (',' :: suf.filter notQuote) =
        ([] : Line) ++ ',' :: suf.filter notQuote by simp [List.dropWhile_cons, hcomma]]
    exact cleanTex_core [] (suf.filter notQuote) hB
  · rw [if_neg hA]
    exact cleanTex_core _ (suf.filter notQuote) hB

/-! ### Character-class facts and classification inversion -/

theorem tifPrefix_dot (t : Line) (h : tifPrefix t = true) : '.' ∈ t := by
  match t with
  | c0 :: c1 :: c2 :: c3 :: r =>
    simp only [tifPrefix, Bool.and_eq_true, decide_eq_true_eq] at h
    rw [h.1.1.1]
    exact List.mem_cons_self _ _
  | [] => simp [tifPrefix] at h
  | [_] => simp [tifPrefix] at h
  | [_, _] => simp [tifPrefix] at h
  | [_, _, _] => simp [tifPrefix] at h

theorem containsTIF_dot (l : Line) (h : containsTIF l = true) : '.' ∈ l := by
  rw [containsTIF, List.any_eq_true] at h
  obtain ⟨t, ht, hp⟩ := h
  exact ((List.mem_tails _ _).mp ht).subset (tifPrefix_dot t hp)

theorem containsTIF_not_alpha (l : Line) (h : containsTIF l = true) : pyIsAlpha l = false := by
  cases ha : pyIsAlpha l with
  | false => rfl
  | true =>
    exfalso
    have hdot := containsTIF_dot l h
    have := (List.all_eq_true.mp (Bool.and_eq_true_iff.mp ha).2) '.' hdot
    exact absurd this (by decide)

theorem containsTIF_not_digit (l : Line) (h : containsTIF l = true) : pyIsDigit l = false := by
  cases ha : pyIsDigit l with
  | false => rfl
  | true =>
    exfalso
    have hdot := containsTIF_dot l h
    have := (List.all_eq_true.mp (Bool.and_eq_true_iff.mp ha).2) '.' hdot
    exact absurd this (by decide)

theorem pyIsDigit_parts (l : Line) (h : pyIsDigit l = true) :
    l ≠ [] ∧ ∀ x ∈ l, x.isDigit = true := by
  obtain ⟨h1, h2⟩ := Bool.and_eq_true_iff.mp h
  refine ⟨fun hl => by simp [hl] at h1, List.all_eq_true.mp h2⟩

theorem pyIsDigit_not_c3d (l : Line) (h : pyIsDigit l = true) :
    pyStartsWith c3dTag l = false := by
  cases hp : pyStartsWith c3dTag l with
  | false => rfl
  | true =>
    exfalso
    obtain ⟨t, ht⟩ := (List.isPrefixOf_iff_prefix.mp hp)
    have hC : 'C' ∈ l := by
      rw [← ht]
      exact List.mem_append_left t (by decide)
    have := (pyIsDigit_parts l h).2 'C' hC
    exact absurd this (by decide)

theorem char_digit_alpha_false (c : Char) (h1 : c.isDigit = true) (h2 : c.isAlpha = true) :
    False := by
  simp only [Char.isDigit, Char.isAlpha, Char.isUpper, Char.isLower, Bool.or_eq_true_iff,
    Bool.and_eq_true_iff, decide_eq_true_eq] at h1 h2
  have hd : c.val.toNat ≤ 57 := h1.2
  rcases h2 with ⟨ha, _⟩ | ⟨ha, _⟩
  · have ha' : 65 ≤ c.val.toNat := ha
    omega
  · have ha' : 97 ≤ c.val.toNat := ha
    omega

theorem pyIsDigit_not_alpha (l : Line) (h : pyIsDigit l = true) : pyIsAlpha l = false := by
  cases ha : pyIsAlpha l with
  | false => rfl
  | true =>
    exfalso
    obtain ⟨hne, hall⟩ := pyIsDigit_parts l h
    cases l with
    | nil => exact hne rfl
    | cons c r =>
      have hd := hall c (List.mem_cons_self c r)
      have hal := (List.all_eq_true.mp (Bool.and_eq_true_iff.mp ha).2) c (List.mem_cons_self c r)
      exact char_digit_alpha_false c hd hal

theorem pyIsDigit_not_startsV (l : Line) (h : pyIsDigit l = true) : startsLowerV l = false := by
  cases l with
  | nil => rfl
  | cons c r =>
    have hd := (pyIsDigit_parts _ h).2 c (List.mem_cons_self c r)
    cases hv : startsLowerV (c :: r) with
    | false => rfl
    | true =>
      exfalso
      have hcv : c = 'v' ∨ c = 'V' := by
        simpa only [startsLowerV, Bool.or_eq_true_iff, decide_eq_true_eq] using hv
      rcases hcv with rfl | rfl <;> exact absurd hd (by decide)

theorem pyIsDigit_not_containsTIF (l : Line) (h : pyIsDigit l = true) :
    containsTIF l = false := by
  cases ht : containsTIF l with
  | false => rfl
  | true =>
    exfalso
    have hdot := containsTIF_dot l ht
    have := (pyIsDigit_parts l h).2 '.' hdot
    exact absurd this (by decide)

theorem classify_digit_versionNone (l : Line) (hd : pyIsDigit l = true) :
    classify true l = .versionCandidate := by
  simp [classify, pyIsDigit_not_c3d l hd, hd]

theorem classify_digit_not_submesh (vn : Bool) (l : Line) (hd : pyIsDigit l = true) :
    classify vn l ≠ .submeshStart := by
  cases vn with
  | true => rw [classify_digit_versionNone l hd]; simp
  | false =>
    simp only [classify, pyIsDigit_not_c3d l hd, Bool.false_and, pyIsDigit_not_alpha l hd,
      pyIsDigit_not_startsV l hd, pyIsDigit_not_containsTIF l hd]
    simp

theorem classify_textureRef_of (vn : Bool) (l : Line) (ht : containsTIF l = true)
    (hc3 : pyStartsWith c3dTag l = false) (hv : startsLowerV l = false) :
    classify vn l = .textureRef := by
  simp [classify, hc3, containsTIF_not_digit l ht, containsTIF_not_alpha l ht, hv, ht]

theorem classify_inv_versionCandidate (vn : Bool) (l : Line)
    (h : classify vn l = .versionCandidate) : vn = true ∧ pyIsDigit l = true := by
  unfold classify at h
  split at h
  · exact absurd h (by simp)
  · split at h
    · rename_i hcond
      exact Bool.and_eq_true_iff.mp hcond
    · split at h
      · exact absurd h (by simp)
      · split at h
        · exact absurd h (by simp)
        · split at h
          · exact absurd h (by simp)
          · exact absurd h (by simp)

theorem classify_inv_submeshStart (vn : Bool) (l : Line)
    (h : classify vn l = .submeshStart) : pyIsAlpha l = true := by
  unfold classify at h
  split at h
  · exact absurd h (by simp)
  · split at h
    · exact absurd h (by simp)
    · split at h
      · rename_i hcond
        exact hcond
      · split at h
        · exact absurd h (by simp)
        · split at h
          · exact absurd h (by simp)
          · exact absurd h (by simp)

theorem pyStrip_of_all_digits (l : Line) (hne : l ≠ []) (hall : ∀ x ∈ l, x.isDigit = true) :
    pyStrip l = l := by
  have hnws : ∀ x ∈ l, pyWS x = false := by
    intro x hx
    have hd := hall x hx
    cases hw : pyWS x with
    | false => rfl
    | true =>
      exfalso
      have : x = ' ' ∨ x = '\t' ∨ x = '\n' ∨ x = '\r' ∨ x = Char.ofNat 11 ∨ x = Char.ofNat 12 := by
        simpa [pyWS, Bool.or_eq_true_iff, decide_eq_true_eq, or_assoc] using hw
      rcases this with rfl | rfl | rfl | rfl | rfl | rfl <;> exact absurd hd (by decide)
  have hld : ldropWS l = l := by
    cases l with
    | nil => rfl
    | cons c r =>
      have := hnws c (List.mem_cons_self c r)
      simp [ldropWS, List.dropWhile_cons, this]
  have hrd : rdropWS l = l := by
    unfold rdropWS
    cases hrev : l.reverse with
    | nil => simp [List.reverse_eq_nil_iff.mp hrev]
    | cons c r =>
      have hcmem : c ∈ l := by
        rw [← List.mem_reverse, hrev]
        exact List.mem_cons_self c r
      have := hnws c hcmem
      rw [List.dropWhile_cons, this]
      simp only [Bool.false_eq_true, if_false, ← hrev, List.reverse_reverse]
  rw [pyStrip, hld, hrd]

theorem pyInt?_of_digit (l : Line) (h : pyIsDigit l = true) :
    pyInt? l = some ((digitsToNat l : Int)) := by
  obtain ⟨hne, hall⟩ := pyIsDigit_parts l h
  have hs : pyStrip l = l := pyStrip_of_all_digits l hne hall
  cases l with
  | nil => exact absurd rfl hne
  | cons c r =>
    have hc := hall c (List.mem_cons_self c r)
    have hcp : ¬ c = '+' := fun hcc => absurd (hcc ▸ hc) (by decide)
    have hcm : ¬ c = '-' := fun hcc => absurd (hcc ▸ hc) (by decide)
    have hrs : readSign (c :: r) = (1, c :: r) := by
      simp [readSign, hcp, hcm]
    simp only [pyInt?, hs, hrs]
    rw [if_pos ⟨List.cons_ne_nil c r, List.all_eq_true.mpr hall⟩]
    simp

/-! ### Loop infrastructure -/

theorem runFrom_ok_inv (lines : List Line) (P : LoopSt → Prop)
    (hstep : ∀ j s s', stepLine lines j s = .ok s' → P s → P s') :
    ∀ fuel i st st', runFrom lines fuel i st = .ok st' → P st → P st' := by
  intro fuel
  induction fuel with
  | zero =>
    intro i st st' h hp
    simp only [runFrom, Except.ok.injEq] at h
    exact h ▸ hp
  | succ f ih =>
    intro i st st' h hp
    unfold runFrom at h
    split at h
    · cases hs : stepLine lines i st with
      | ok s1 =>
        rw [hs] at h
        exact ih (i + 1) s1 st' h (hstep i st s1 hs hp)
      | error e =>
        rw [hs] at h
        exact absurd h (by simp)
    · simp only [Except.ok.injEq] at h
      exact h ▸ hp

theorem runFrom_add (lines : List Line) (f2 : Nat) :
    ∀ f1 i st, i + f1 ≤ lines.length →
      runFrom lines (f1 + f2) i st =
        match runFrom lines f1 i st with
        | .ok st' => runFrom lines f2 (i + f1) st'
        | .error e => .error e := by
  intro f1
  induction f1 with
  | zero =>
    intro i st _
    simp [runFrom]
  | succ f ih =>
    intro i st h
    have hi : i < lines.length := by omega
    cases hs : stepLine lines i st with
    | ok s1 =>
      rw [show f + 1 + f2 = (f + f2) + 1 from by omega]
      rw [show runFrom lines ((f + f2) + 1) i st = runFrom lines (f + f2) (i + 1) s1 from by
        simp [runFrom, hi, hs]]
      rw [show runFrom lines (f + 1) i st = runFrom lines f (i + 1) s1 from by
        simp [runFrom, hi, hs]]
      rw [ih (i + 1) s1 (by omega)]
      rw [show i + 1 + f = i + (f + 1) from by omega]
    | error e =>
      rw [show f + 1 + f2 = (f + f2) + 1 from by omega]
      rw [show runFrom lines ((f + f2) + 1) i st = .error e from by simp [runFrom, hi, hs]]
      rw [show runFrom lines (f + 1) i st = .error e from by simp [runFrom, hi, hs]]

/-! ### Step equations, one per branch of the classification -/

theorem stepLine_header (lines : List Line) (i : Nat) (st : LoopSt)
    (h : classify st.store.version.isNone (lines.getD i []) = .header) :
    stepLine lines i st = .ok { st with store := { st.store with headerType := true } } := by
  simp only [stepLine, h]

theorem stepLine_version (lines : List Line) (i : Nat) (st : LoopSt)
    (h : classify st.store.version.isNone (lines.getD i []) = .versionCandidate) :
    stepLine lines i st =
      .ok { st with store := { st.store with version := pyInt? (lines.getD i []) } } := by
  simp only [stepLine, h]

theorem stepLine_submesh_close (lines : List Line) (i : Nat) (st : LoopSt) (c : Submesh)
    (hcur : st.current = some c)
    (h : classify st.store.version.isNone (lines.getD i []) = .submeshStart) :
    stepLine lines i st =
      .ok { store := { st.store with submeshes := st.store.submeshes ++ [c] },
            current := some { name := lines.getD i [], vertices := [], faces := [],
                              textures := [], counts := none } } := by
  simp only [stepLine, h, hcur]

theorem stepLine_submesh_fresh (lines : List Line) (i : Nat) (st : LoopSt)
    (hcur : st.current = none)
    (h : classify st.store.version.isNone (lines.getD i []) = .submeshStart) :
    stepLine lines i st =
      .ok { store := st.store,
            current := some { name := lines.getD i [], vertices := [], faces := [],
                              textures := [], counts := none } } := by
  simp only [stepLine, h, hcur]

theorem stepLine_vm (lines : List Line) (i : Nat) (st : LoopSt)
    (h : classify st.store.version.isNone (lines.getD i []) = .vertexMarker) :
    stepLine lines i st = .ok st := by
  simp only [stepLine, h]

theorem stepLine_tex_attach (lines : List Line) (i : Nat) (st : LoopSt) (sm : Submesh)
    (hcur : st.current = some sm)
    (hcond : sm.vertices = [] ∧ cleanTex (lines.getD i []) ≠ [])
    (h : classify st.store.version.isNone (lines.getD i []) = .textureRef) :
    stepLine lines i st =
      .ok { store := { st.store with
              textures := addIfNew st.store.textures (cleanTex (lines.getD i [])) },
            current := some { sm with
              textures := addIfNew sm.textures (cleanTex (lines.getD i [])) } } := by
  simp only [stepLine, h, hcur, if_pos hcond]

theorem stepLine_tex_skip (lines : List Line) (i : Nat) (st : LoopSt) (sm : Submesh)
    (hcur : st.current = some sm)
    (hcond : ¬(sm.vertices = [] ∧ cleanTex (lines.getD i []) ≠ []))
    (h : classify st.store.version.isNone (lines.getD i []) = .textureRef) :
    stepLine lines i st = .ok st := by
  simp only [stepLine, h, hcur, if_neg hcond]

theorem stepLine_tex_nocur_add (lines : List Line) (i : Nat) (st : LoopSt)
    (hcur : st.current = none)
    (hcond : cleanTex (lines.getD i []) ≠ [] ∧ cleanTex (lines.getD i []) ∉ st.store.textures)
    (h : classify st.store.version.isNone (lines.getD i []) = .textureRef) :
    stepLine lines i st =
      .ok { st with store := { st.store with
              textures := st.store.textures ++ [cleanTex (lines.getD i [])] } } := by
  simp only [stepLine, h, hcur, if_pos hcond]

theorem stepLine_tex_nocur_skip (lines : List Line) (i : Nat) (st : LoopSt)
    (hcur : st.current = none)
    (hcond : ¬(cleanTex (lines.getD i []) ≠ [] ∧
               cleanTex (lines.getD i []) ∉ st.store.textures))
    (h : classify st.store.version.isNone (lines.getD i []) = .textureRef) :
    stepLine lines i st = .ok st := by
  simp only [stepLine, h, hcur, if_neg hcond]

theorem stepLine_csv8_ok (lines : List Line) (i : Nat) (st : LoopSt) (v : List FVal) (sm : Submesh)
    (h : classify st.store.version.isNone (lines.getD i []) = .csvRow 8)
    (hf : pyFloats? (pySplitOn ',' (lines.getD i [])) = some v)
    (hcur : applyHints lines i st.current = some sm) :
    stepLine lines i st =
      .ok { store := { st.store with vertices := st.store.vertices ++ [v] },
            current := some { sm with vertices := sm.vertices ++ [v] } } := by
  simp only [stepLine, h, hf, hcur, if_pos rfl]
  simp

theorem stepLine_csv8_err (lines : List Line) (i : Nat) (st : LoopSt) (v : List FVal)
    (h : classify st.store.version.isNone (lines.getD i []) = .csvRow 8)
    (hf : pyFloats? (pySplitOn ',' (lines.getD i [])) = some v)
    (hcur : applyHints lines i st.current = none) :
    stepLine lines i st = .error PyErr.typeError := by
  simp only [stepLine, h, hf, hcur, if_pos rfl]
  simp

theorem stepLine_csv8_bad (lines : List Line) (i : Nat) (st : LoopSt)
    (h : classify st.store.version.isNone (lines.getD i []) = .csvRow 8)
    (hf : pyFloats? (pySplitOn ',' (lines.getD i [])) = none) :
    stepLine lines i st = .ok { st with current := applyHints lines i st.current } := by
  simp only [stepLine, h, hf, if_pos rfl]
  simp

theorem stepLine_csv3_ok (lines : List Line) (i : Nat) (st : LoopSt) (f : List Int) (sm : Submesh)
    (h : classify st.store.version.isNone (lines.getD i []) = .csvRow 3)
    (hi : pyInts? (pySplitOn ',' (lines.getD i [])) = some f)
    (hcur : applyHints lines i st.current = some sm) :
    stepLine lines i st =
      .ok { st with current := some { sm with faces := sm.faces ++ [f] } } := by
  simp only [stepLine, h, hi, hcur, if_pos rfl]
  simp

theorem stepLine_csv3_nocur (lines : List Line) (i : Nat) (st : LoopSt) (f : List Int)
    (h : classify st.store.version.isNone (lines.getD i []) = .csvRow 3)
    (hi : pyInts? (pySplitOn ',' (lines.getD i [])) = some f)
    (hcur : applyHints lines i st.current = none) :
    stepLine lines i st = .ok { st with current := none } := by
  simp only [stepLine, h, hi, hcur, if_pos rfl]
  simp

theorem stepLine_csv3_bad (lines : List Line) (i : Nat) (st : LoopSt)
    (h : classify st.store.version.isNone (lines.getD i []) = .csvRow 3)
    (hi : pyInts? (pySplitOn ',' (lines.getD i [])) = none) :
    stepLine lines i st = .ok { st with current := applyHints lines i st.current } := by
  simp only [stepLine, h, hi, if_pos rfl]
  simp

theorem stepLine_csv_other (lines : List Line) (i : Nat) (st : LoopSt) (n : Nat)
    (h : classify st.store.version.isNone (lines.getD i []) = .csvRow n)
    (h8 : n ≠ 8) (h3 : n ≠ 3) :
    stepLine lines i st = .ok { st with current := applyHints lines i st.current } := by
  simp only [stepLine, h, if_neg h8, if_neg h3]

theorem applyHints_shape (lines : List Line) (i : Nat) (cur : Option Submesh) :
    applyHints lines i cur = cur ∨
    (∃ sm, cur = some sm ∧ sm.counts = none ∧
      applyHints lines i cur = some { sm with counts := some (findCounts lines i) }) := by
  cases cur with
  | none => exact Or.inl rfl
  | some sm =>
    by_cases hc : sm.counts = none
    · exact Or.inr ⟨sm, rfl, hc, by simp [applyHints, hc]⟩
    · exact Or.inl (by simp [applyHints, hc])

theorem applyHints_none (lines : List Line) (i : Nat) (cur : Option Submesh)
    (h : applyHints lines i cur = none) : cur = none := by
  cases cur with
  | none => rfl
  | some sm =>
    exfalso
    by_cases hc : sm.counts = none <;> simp [applyHints, hc] at h

/-- Exhaustive description of the successful outcomes of one loop
iteration, used to push invariants through the parse loop. -/
theorem stepLine_ok_shape (lines : List Line) (i : Nat) (st st' : LoopSt)
    (h : stepLine lines i st = .ok st') :
    (st' = { st with store := { st.store with headerType := true } }) ∨
    (classify st.store.version.isNone (lines.getD i []) = .versionCandidate ∧
      st' = { st with store := { st.store with version := pyInt? (lines.getD i []) } }) ∨
    (classify st.store.version.isNone (lines.getD i []) = .submeshStart ∧
      ∃ c, st.current = some c ∧
        st' = { store := { st.store with submeshes := st.store.submeshes ++ [c] },
                current := some { name := lines.getD i [], vertices := [], faces := [],
                                  textures := [], counts := none } }) ∨
    (classify st.store.version.isNone (lines.getD i []) = .submeshStart ∧
      st.current = none ∧
      st' = { store := st.store,
              current := some { name := lines.getD i [], vertices := [], faces := [],
                                textures := [], counts := none } }) ∨
    (st' = st) ∨
    (∃ sm, st.current = some sm ∧
      st' = { store := { st.store with
                textures := addIfNew st.store.textures (cleanTex (lines.getD i [])) },
              current := some { sm with
                textures := addIfNew sm.textures (cleanTex (lines.getD i [])) } }) ∨
    (st.current = none ∧
      st' = { st with store := { st.store with
                textures := st.store.textures ++ [cleanTex (lines.getD i [])] } }) ∨
    (∃ v sm, applyHints lines i st.current = some sm ∧
      classify st.store.version.isNone (lines.getD i []) = .csvRow 8 ∧
      pyFloats? (pySplitOn ',' (lines.getD i [])) = some v ∧
      st' = { store := { st.store with vertices := st.store.vertices ++ [v] },
              current := some { sm with vertices := sm.vertices ++ [v] } }) ∨
    (∃ f sm, applyHints lines i st.current = some sm ∧
      classify st.store.version.isNone (lines.getD i []) = .csvRow 3 ∧
      pyInts? (pySplitOn ',' (lines.getD i [])) = some f ∧
      st' = { st with current := some { sm with faces := sm.faces ++ [f] } }) ∨
    (st' = { st with current := applyHints lines i st.current }) := by
  cases hcls : classify st.store.version.isNone (lines.getD i []) with
  | header =>
    rw [stepLine_header _ _ _ hcls] at h
    simp only [Except.ok.injEq] at h
    exact Or.inl h.symm
  | versionCandidate =>
    rw [stepLine_version _ _ _ hcls] at h
    simp only [Except.ok.injEq] at h
    exact Or.inr (Or.inl ⟨rfl, h.symm⟩)
  | submeshStart =>
    cases hc : st.current with
    | some c =>
      rw [stepLine_submesh_close _ _ _ c hc hcls] at h
      simp only [Except.ok.injEq] at h
      exact Or.inr (Or.inr (Or.inl ⟨rfl, c, rfl, h.symm⟩))
    | none =>
      rw [stepLine_submesh_fresh _ _ _ hc hcls] at h
      simp only [Except.ok.injEq] at h
      exact Or.inr (Or.inr (Or.inr (Or.inl ⟨rfl, rfl, h.symm⟩)))
  | vertexMarker =>
    rw [stepLine_vm _ _ _ hcls] at h
    simp only [Except.ok.injEq] at h
    exact Or.inr (Or.inr (Or.inr (Or.inr (Or.inl h.symm))))
  | textureRef =>
    cases hc : st.current with
    | some sm =>
      by_cases hcond : sm.vertices = [] ∧ cleanTex (lines.getD i []) ≠ []
      · rw [stepLine_tex_attach _ _ _ sm hc hcond hcls] at h
        simp only [Except.ok.injEq] at h
        exact Or.inr (Or.inr (Or.inr (Or.inr (Or.inr (Or.inl ⟨sm, rfl, h.symm⟩)))))
      · rw [stepLine_tex_skip _ _ _ sm hc hcond hcls] at h
        simp only [Except.ok.injEq] at h
        exact Or.inr (Or.inr (Or.inr (Or.inr (Or.inl h.symm))))
    | none =>
      by_cases hcond : cleanTex (lines.getD i []) ≠ [] ∧
          cleanTex (lines.getD i []) ∉ st.store.textures
      · rw [stepLine_tex_nocur_add _ _ _ hc hcond hcls] at h
        simp only [Except.ok.injEq] at h
        refine Or.inr (Or.inr (Or.inr (Or.inr (Or.inr (Or.inr (Or.inl ⟨rfl, ?_⟩))))))
        rw [← h, hc]
      · rw [stepLine_tex_nocur_skip _ _ _ hc hcond hcls] at h
        simp only [Except.ok.injEq] at h
        exact Or.inr (Or.inr (Or.inr (Or.inr (Or.inl h.symm))))
  | csvRow n =>
    by_cases h8 : n = 8
    · subst h8
      cases hf : pyFloats? (pySplitOn ',' (lines.getD i [])) with
      | some v =>
        cases hac : applyHints lines i st.current with
        | some sm =>
          rw [stepLine_csv8_ok _ _ _ v sm hcls hf hac] at h
          simp only [Except.ok.injEq] at h
          refine Or.inr (Or.inr (Or.inr (Or.inr (Or.inr (Or.inr (Or.inr (Or.inl ?_)))))))
          exact ⟨v, sm, rfl, rfl, rfl, h.symm⟩
        | none =>
          rw [stepLine_csv8_err _ _ _ v hcls hf hac] at h
          exact absurd h (by simp)
      | none =>
        rw [stepLine_csv8_bad _ _ _ hcls hf] at h
        simp only [Except.ok.injEq] at h
        exact Or.inr (Or.inr (Or.inr (Or.inr (Or.inr (Or.inr (Or.inr (Or.inr (Or.inr h.symm))))))))
    · by_cases h3 : n = 3
      · subst h3
        cases hi2 : pyInts? (pySplitOn ',' (lines.getD i [])) with
        | some f =>
          cases hac : applyHints lines i st.current with
          | some sm =>
            rw [stepLine_csv3_ok _ _ _ f sm hcls hi2 hac] at h
            simp only [Except.ok.injEq] at h
            refine Or.inr (Or.inr (Or.inr (Or.inr (Or.inr (Or.inr (Or.inr (Or.inr (Or.inl ?_))))))))
            exact ⟨f, sm, rfl, rfl, rfl, h.symm⟩
          | none =>
            rw [stepLine_csv3_nocur _ _ _ f hcls hi2 hac] at h
            simp only [Except.ok.injEq] at h
            exact Or.inr (Or.inr (Or.inr (Or.inr (Or.inr (Or.inr (Or.inr (Or.inr (Or.inr h.symm))))))))
        | none =>
          rw [stepLine_csv3_bad _ _ _ hcls hi2] at h
          simp only [Except.ok.injEq] at h
          exact Or.inr (Or.inr (Or.inr (Or.inr (Or.inr (Or.inr (Or.inr (Or.inr (Or.inr h.symm))))))))
      · rw [stepLine_csv_other _ _ _ n hcls h8 h3] at h
        simp only [Except.ok.injEq] at h
        exact Or.inr (Or.inr (Or.inr (Or.inr (Or.inr (Or.inr (Or.inr (Or.inr (Or.inr h.symm))))))))

theorem mem_addIfNew (xs : List Line) (x t : Line) (h : t ∈ xs) : t ∈ addIfNew xs x := by
  unfold addIfNew
  split
  · exact h
  · exact List.mem_append_left _ h

theorem stepLine_textures_mono (lines : List Line) (i : Nat) (st st' : LoopSt)
    (h : stepLine lines i st = .ok st') (t : Line) (ht : t ∈ st.store.textures) :
    t ∈ st'.store.textures := by
  rcases stepLine_ok_shape lines i st st' h with
    rfl | ⟨-, rfl⟩ | ⟨-, c, hc, rfl⟩ | ⟨-, hc, rfl⟩ | rfl | ⟨sm, hc, rfl⟩ | ⟨hc, rfl⟩ |
    ⟨v, sm, hac, -, -, rfl⟩ | ⟨f, sm, hac, -, -, rfl⟩ | rfl
  · exact ht
  · exact ht
  · exact ht
  · exact ht
  · exact ht
  · exact mem_addIfNew _ _ _ ht
  · exact List.mem_append_left _ ht
  · exact ht
  · exact ht
  · exact ht

theorem stepLine_version_unchanged (lines : List Line) (i : Nat) (st st' : LoopSt)
    (h : stepLine lines i st = .ok st')
    (hd : pyIsDigit (lines.getD i []) = false) :
    st'.store.version = st.store.version := by
  rcases stepLine_ok_shape lines i st st' h with
    rfl | ⟨hcls, rfl⟩ | ⟨-, c, hc, rfl⟩ | ⟨-, hc, rfl⟩ | rfl | ⟨sm, hc, rfl⟩ | ⟨hc, rfl⟩ |
    ⟨v, sm, hac, -, -, rfl⟩ | ⟨f, sm, hac, -, -, rfl⟩ | rfl
  · rfl
  · have h1 := (classify_inv_versionCandidate _ _ hcls).2
    rw [hd] at h1
    exact absurd h1 (by decide)
  · rfl
  · rfl
  · rfl
  · rfl
  · rfl
  · rfl
  · rfl
  · rfl

theorem stepLine_version_stays_some (lines : List Line) (i : Nat) (st st' : LoopSt) (v0 : Int)
    (h : stepLine lines i st = .ok st') (hv : st.store.version = some v0) :
    st'.store.version = some v0 := by
  rcases stepLine_ok_shape lines i st st' h with
    rfl | ⟨hcls, rfl⟩ | ⟨-, c, hc, rfl⟩ | ⟨-, hc, rfl⟩ | rfl | ⟨sm, hc, rfl⟩ | ⟨hc, rfl⟩ |
    ⟨v, sm, hac, -, -, rfl⟩ | ⟨f, sm, hac, -, -, rfl⟩ | rfl
  · exact hv
  · have h1 := (classify_inv_versionCandidate _ _ hcls).1
    rw [hv] at h1
    simp at h1
  · exact hv
  · exact hv
  · exact hv
  · exact hv
  · exact hv
  · exact hv
  · exact hv
  · exact hv

theorem get_append_left_sub (A B : List Submesh) (k : Nat) (hk : k < A.length)
    (h2 : k < (A ++ B).length) : (A ++ B).get ⟨k, h2⟩ = A.get ⟨k, hk⟩ := by
  simp [List.get_eq_getElem, List.getElem_append_left hk]

theorem get_append_last_sub (A : List Submesh) (c : Submesh)
    (h2 : A.length < (A ++ [c]).length) : (A ++ [c]).get ⟨A.length, h2⟩ = c := by
  simp [List.get_eq_getElem]

theorem stepLine_slotP (lines : List Line) (i k : Nat) (p : Submesh → Prop)
    (hp1 : ∀ sm t, p sm → p { sm with textures := addIfNew sm.textures t })
    (hp2 : ∀ sm v, p sm → p { sm with vertices := sm.vertices ++ [v] })
    (hp3 : ∀ sm f, p sm → p { sm with faces := sm.faces ++ [f] })
    (hp4 : ∀ sm w, sm.counts = none → p sm → p { sm with counts := some w })
    (st st' : LoopSt) (h : stepLine lines i st = .ok st') (hs : slotP k p st) :
    slotP k p st' := by
  have applyCase : ∀ (sm : Submesh) (c0 : Submesh),
      applyHints lines i st.current = some sm → st.current = some c0 → p c0 → p sm := by
    intro sm c0 hac hc0 hpc
    rcases applyHints_shape lines i st.current with heq | ⟨sm0, hsm0, hcn, heq⟩
    · rw [heq, hc0] at hac
      injection hac with hac
      exact hac ▸ hpc
    · rw [hc0] at hsm0
      injection hsm0 with hsm0
      rw [heq] at hac
      injection hac with hac
      subst hsm0
      exact hac ▸ hp4 c0 (findCounts lines i) hcn hpc
  rcases stepLine_ok_shape lines i st st' h with
    rfl | ⟨-, rfl⟩ | ⟨-, c, hc, rfl⟩ | ⟨-, hc, rfl⟩ | rfl | ⟨sm, hc, rfl⟩ | ⟨hc, rfl⟩ |
    ⟨v, sm, hac, -, -, rfl⟩ | ⟨f, sm, hac, -, -, rfl⟩ | rfl
  · exact hs
  · exact hs
  · rcases hs with ⟨hk, hp⟩ | ⟨hlen, c0, hc0, hpc⟩
    · left
      have hk2 : k < (st.store.submeshes ++ [c]).length := by
        simp only [List.length_append]
        omega
      refine ⟨hk2, ?_⟩
      show p ((st.store.submeshes ++ [c]).get ⟨k, hk2⟩)
      rw [get_append_left_sub _ _ k hk]
      exact hp
    · rw [hc] at hc0
      injection hc0 with hc0
      subst hc0
      left
      have hk3 : k = st.store.submeshes.length := hlen.symm
      subst hk3
      have hk2 : st.store.submeshes.length < (st.store.submeshes ++ [c]).length := by
        simp
      refine ⟨hk2, ?_⟩
      show p ((st.store.submeshes ++ [c]).get ⟨st.store.submeshes.length, hk2⟩)
      rw [get_append_last_sub]
      exact hpc
  · rcases hs with ⟨hk, hp⟩ | ⟨hlen, c0, hc0, hpc⟩
    · exact Or.inl ⟨hk, hp⟩
    · rw [hc] at hc0
      exact absurd hc0 (by simp)
  · exact hs
  · rcases hs with ⟨hk, hp⟩ | ⟨hlen, c0, hc0, hpc⟩
    · exact Or.inl ⟨hk, hp⟩
    · rw [hc] at hc0
      injection hc0 with hc0
      subst hc0
      exact Or.inr ⟨hlen, _, rfl, hp1 sm _ hpc⟩
  · rcases hs with ⟨hk, hp⟩ | ⟨hlen, c0, hc0, hpc⟩
    · exact Or.inl ⟨hk, hp⟩
    · rw [hc] at hc0
      exact absurd hc0 (by simp)
  · rcases hs with ⟨hk, hp⟩ | ⟨hlen, c0, hc0, hpc⟩
    · exact Or.inl ⟨hk, hp⟩
    · exact Or.inr ⟨hlen, _, rfl, hp2 sm v (applyCase sm c0 hac hc0 hpc)⟩
  · rcases hs with ⟨hk, hp⟩ | ⟨hlen, c0, hc0, hpc⟩
    · exact Or.inl ⟨hk, hp⟩
    · exact Or.inr ⟨hlen, _, rfl, hp3 sm f (applyCase sm c0 hac hc0 hpc)⟩
  · rcases hs with ⟨hk, hp⟩ | ⟨hlen, c0, hc0, hpc⟩
    · exact Or.inl ⟨hk, hp⟩
    · rcases applyHints_shape lines i st.current with heq | ⟨sm0, hsm0, hcn, heq⟩
      · right
        rw [heq]
        exact ⟨hlen, c0, hc0, hpc⟩
      · right
        rw [hc0] at hsm0
        injection hsm0 with hsm0
        subst hsm0
        rw [heq]
        exact ⟨hlen, _, rfl, hp4 c0 _ hcn hpc⟩

theorem finalizeSt_version (s : LoopSt) : (finalizeSt s).version = s.store.version := by
  unfold finalizeSt
  cases s.current <;> rfl

theorem finalizeSt_vertices (s : LoopSt) : (finalizeSt s).vertices = s.store.vertices := by
  unfold finalizeSt
  cases s.current <;> rfl

theorem finalizeSt_textures_mem (s : LoopSt) (t : Line) (ht : t ∈ s.store.textures) :
    t ∈ (finalizeSt s).textures := by
  unfold finalizeSt
  cases s.current <;> simpa [mem_dedupFirst] using ht

theorem finalizeSt_textures_nodup (s : LoopSt) : (finalizeSt s).textures.Nodup := by
  unfold finalizeSt
  cases s.current <;> exact dedupFirst_nodup _

theorem finalizeSt_slot (k : Nat) (p : Submesh → Prop)
    (hp5 : ∀ sm, p sm → p { sm with textures := dedupFirst sm.textures })
    (s : LoopSt) (hs : slotP k p s) :
    ∃ h : k < (finalizeSt s).submeshes.length, p ((finalizeSt s).submeshes.get ⟨k, h⟩) := by
  have core : ∀ (A : List Submesh),
      (∃ h : k < A.length, p (A.get ⟨k, h⟩)) →
      ∃ h : k < (A.map fun sm => { sm with textures := dedupFirst sm.textures }).length,
        p ((A.map fun sm => { sm with textures := dedupFirst sm.textures }).get ⟨k, h⟩) := by
    intro A ⟨hk, hp⟩
    have hk2 : k < (A.map fun sm => { sm with textures := dedupFirst sm.textures }).length := by
      simpa using hk
    refine ⟨hk2, ?_⟩
    have hmap : (A.map fun sm => { sm with textures := dedupFirst sm.textures }).get ⟨k, hk2⟩ =
        { A.get ⟨k, hk⟩ with textures := dedupFirst (A.get ⟨k, hk⟩).textures } := by
      simp [List.get_eq_getElem]
    rw [hmap]
    exact hp5 _ hp
  rcases hs with ⟨hk, hp⟩ | ⟨hlen, c, hc, hpc⟩
  · cases hcur : s.current with
    | none =>
      have : finalizeSt s = { s.store with
          submeshes := s.store.submeshes.map fun sm =>
            { sm with textures := dedupFirst sm.textures },
          textures := dedupFirst s.store.textures } := by
        simp [finalizeSt, hcur]
      rw [this]
      exact core s.store.submeshes ⟨hk, hp⟩
    | some c =>
      have : (finalizeSt s).submeshes = (s.store.submeshes ++ [c]).map fun sm =>
          { sm with textures := dedupFirst sm.textures } := by
        simp [finalizeSt, hcur]
      have hk1 : k < (s.store.submeshes ++ [c]).length := by
        simp only [List.length_append]
        omega
      have := core (s.store.submeshes ++ [c]) ⟨hk1, by
        rw [get_append_left_sub _ _ k hk]
        exact hp⟩
      rw [show (finalizeSt s).submeshes = (s.store.submeshes ++ [c]).map fun sm =>
          { sm with textures := dedupFirst sm.textures } by simp [finalizeSt, hcur]]
      exact this
  · have hfin : (finalizeSt s).submeshes = (s.store.submeshes ++ [c]).map fun sm =>
        { sm with textures := dedupFirst sm.textures } := by
      simp [finalizeSt, hc]
    have hk1 : k < (s.store.submeshes ++ [c]).length := by
      simp only [List.length_append, List.length_singleton, hlen]
      omega
    have hget : (s.store.submeshes ++ [c]).get ⟨k, hk1⟩ = c := by
      have hk3 : k = s.store.submeshes.length := hlen.symm
      subst hk3
      exact get_append_last_sub _ _ hk1
    have := core (s.store.submeshes ++ [c]) ⟨hk1, by rw [hget]; exact hpc⟩
    rw [hfin]
    exact this

theorem getD_mem_or_nil (lines : List Line) (j : Nat) :
    lines.getD j [] ∈ lines ∨ lines.getD j [] = [] := by
  by_cases hj : j < lines.length
  · left
    rw [List.getD_eq_getElem lines [] hj]
    exact List.getElem_mem _
  · right
    exact List.getD_eq_default lines [] (by omega)

/-- C1 (amended): on an input with no all-alphabetic line, a parse that
returns normally yields a Model whose submeshes list and whose global
vertex list are both empty.  (The original claim fails: an accepted
8-field numeric row with no submesh open raises `TypeError` instead of
reaching the global list; see the counterexample.) -/
theorem c1_no_submesh_amended (lines : List Line)
    (hna : ∀ l ∈ lines, pyIsAlpha l = false) (m : Store)
    (h : parse lines = .ok m) : m.submeshes = [] ∧ m.vertices = [] := by
  have hstep : ∀ j s s', stepLine lines j s = .ok s' →
      (s.current = none ∧ s.store.submeshes = [] ∧ s.store.vertices = []) →
      (s'.current = none ∧ s'.store.submeshes = [] ∧ s'.store.vertices = []) := by
    intro j s s' hok hp
    obtain ⟨hc, hsub, hv⟩ := hp
    have hna' : pyIsAlpha (lines.getD j []) = false := by
      rcases getD_mem_or_nil lines j with hmem | hnil
      · exact hna _ hmem
      · rw [hnil]; rfl
    rcases stepLine_ok_shape lines j s s' hok with
      rfl | ⟨-, rfl⟩ | ⟨hcls, c, hc0, rfl⟩ | ⟨hcls, hc0, rfl⟩ | rfl | ⟨sm, hc0, rfl⟩ |
      ⟨hc0, rfl⟩ | ⟨v, sm, hac, -, -, rfl⟩ | ⟨f, sm, hac, -, -, rfl⟩ | rfl
    · exact ⟨hc, hsub, hv⟩
    · exact ⟨hc, hsub, hv⟩
    · have h1 := classify_inv_submeshStart _ _ hcls
      rw [hna'] at h1
      exact absurd h1 (by decide)
    · have h1 := classify_inv_submeshStart _ _ hcls
      rw [hna'] at h1
      exact absurd h1 (by decide)
    · exact ⟨hc, hsub, hv⟩
    · exact absurd hc0 (by simp [hc])
    · exact ⟨hc, hsub, hv⟩
    · rw [hc] at hac
      exact absurd hac (by simp [applyHints])
    · rw [hc] at hac
      exact absurd hac (by simp [applyHints])
    · refine ⟨?_, hsub, hv⟩
      show applyHints lines j s.current = none
      rw [hc]
      rfl
  unfold parse parseFrom at h
  cases hr : runFrom lines lines.length 0 { store := initStore, current := none } with
  | error e =>
    rw [hr] at h
    exact absurd h (by simp [Except.map])
  | ok s2 =>
    rw [hr] at h
    simp only [Except.map, Except.ok.injEq] at h
    obtain ⟨hc2, hsub2, hv2⟩ :=
      runFrom_ok_inv lines _ hstep lines.length 0 _ s2 hr ⟨rfl, rfl, rfl⟩
    subst h
    constructor
    · simp [finalizeSt, hc2, hsub2]
    · rw [finalizeSt_vertices]
      exact hv2

theorem parseFrom_ok_elim (s0 : Store) (lines : List Line) (m : Store)
    (h : parseFrom s0 lines = .ok m) :
    ∃ s2, runFrom lines lines.length 0 { store := s0, current := none } = .ok s2 ∧
      m = finalizeSt s2 := by
  unfold parseFrom at h
  cases hr : runFrom lines lines.length 0 { store := s0, current := none } with
  | error e =>
    rw [hr] at h
    exact absurd h (by simp [Except.map])
  | ok s2 =>
    rw [hr] at h
    simp only [Except.map, Except.ok.injEq] at h
    exact ⟨s2, rfl, h.symm⟩

theorem parse_ok_elim (lines : List Line) (m : Store) (h : parse lines = .ok m) :
    ∃ s2, runFrom lines lines.length 0 { store := initStore, current := none } = .ok s2 ∧
      m = finalizeSt s2 :=
  parseFrom_ok_elim initStore lines m h

theorem runFrom_version_aux (lines : List Line) :
    ∀ fuel i st st', lines.length ≤ i + fuel →
      runFrom lines fuel i st = .ok st' → st.store.version = none →
      st'.store.version = ((lines.drop i).find? fun l => pyIsDigit l).bind pyInt? := by
  intro fuel
  induction fuel with
  | zero =>
    intro i st st' hlen h hv
    simp only [runFrom, Except.ok.injEq] at h
    rw [List.drop_eq_nil_of_le (by omega)]
    simp [← h, hv]
  | succ f ih =>
    intro i st st' hlen h hv
    unfold runFrom at h
    by_cases hi : i < lines.length
    · rw [if_pos hi] at h
      have hdrop : lines.drop i = lines.getD i [] :: lines.drop (i + 1) := by
        rw [List.getD_eq_getElem lines [] hi]
        exact List.drop_eq_getElem_cons hi
      cases hd : pyIsDigit (lines.getD i []) with
      | true =>
        have hvn : st.store.version.isNone = true := by rw [hv]; rfl
        have hcls : classify st.store.version.isNone (lines.getD i []) = .versionCandidate := by
          rw [hvn]
          exact classify_digit_versionNone _ hd
        rw [stepLine_version lines i st hcls] at h
        have hsome : pyInt? (lines.getD i []) = some (digitsToNat (lines.getD i [])) :=
          pyInt?_of_digit _ hd
        have hstay := runFrom_ok_inv lines
          (fun s => s.store.version = some ((digitsToNat (lines.getD i []) : Int)))
          (fun j a b hb ha => stepLine_version_stays_some lines j a b _ hb ha)
          f (i + 1) _ st' h hsome
        have hfind : ((lines.getD i [] :: lines.drop (i + 1)).find? fun l =>
            pyIsDigit l).bind pyInt? = pyInt? (lines.getD i []) := by
          rw [List.find?_cons_of_pos _ hd]
          rfl
        rw [hdrop, hfind, hstay]
        exact hsome.symm
      | false =>
        cases hs : stepLine lines i st with
        | error e =>
          rw [hs] at h
          exact absurd h (by simp)
        | ok st1 =>
          rw [hs] at h
          have hv1 : st1.store.version = none := by
            rw [stepLine_version_unchanged lines i st st1 hs hd]
            exact hv
          rw [hdrop, List.find?_cons_of_neg _ (fun hq => by rw [hd] at hq; exact Bool.noConfusion hq)]
          exact ih (i + 1) st1 st' (by omega) h hv1
    · rw [if_neg hi] at h
      simp only [Except.ok.injEq] at h
      rw [List.drop_eq_nil_of_le (by omega)]
      simp [← h, hv]

/-- C4 (amended): the version is captured from the first all-digit line
anywhere in the input, whether or not a submesh has already started, and
once set it is never overwritten.  (The original claim fails: the
version branch has no before-any-submesh condition; see the
counterexample, where the only all-digit line follows a submesh start
and still sets the version.) -/
theorem c4_version_amended (lines : List Line) (m : Store) (h : parse lines = .ok m) :
    m.version = (lines.find? fun l => pyIsDigit l).bind pyInt? := by
  obtain ⟨s2, hr, rfl⟩ := parse_ok_elim lines m h
  rw [finalizeSt_version]
  have := runFrom_version_aux lines lines.length 0 _ s2 (by omega) hr rfl
  simpa using this

theorem optVerts_applyHints (lines : List Line) (i : Nat) (cur : Option Submesh) :
    optVerts (applyHints lines i cur) = optVerts cur := by
  rcases applyHints_shape lines i cur with heq | ⟨sm, hsm, hcn, heq⟩
  · rw [heq]
  · rw [heq, hsm]
    rfl

theorem stepLine_vertices_inv (lines : List Line) (i : Nat) (st st' : LoopSt)
    (h : stepLine lines i st = .ok st')
    (hinv : st.store.vertices =
      (st.store.submeshes.map fun sm => sm.vertices).flatten ++ optVerts st.current) :
    st'.store.vertices =
      (st'.store.submeshes.map fun sm => sm.vertices).flatten ++ optVerts st'.current := by
  rcases stepLine_ok_shape lines i st st' h with
    rfl | ⟨-, rfl⟩ | ⟨-, c, hc, rfl⟩ | ⟨-, hc, rfl⟩ | rfl | ⟨sm, hc, rfl⟩ | ⟨hc, rfl⟩ |
    ⟨v, sm, hac, -, -, rfl⟩ | ⟨f, sm, hac, -, -, rfl⟩ | rfl
  · exact hinv
  · exact hinv
  · show st.store.vertices =
      ((st.store.submeshes ++ [c]).map fun sm => sm.vertices).flatten ++ optVerts (some
        { name := lines.getD i [], vertices := [], faces := [], textures := [], counts := none })
    rw [hinv, hc]
    simp [optVerts]
  · show st.store.vertices =
      (st.store.submeshes.map fun sm => sm.vertices).flatten ++ optVerts (some
        { name := lines.getD i [], vertices := [], faces := [], textures := [], counts := none })
    rw [hinv, hc]
    rfl
  · exact hinv
  · show st.store.vertices =
      (st.store.submeshes.map fun sm => sm.vertices).flatten ++
        optVerts (some { sm with textures := addIfNew sm.textures (cleanTex (lines.getD i [])) })
    rw [hinv, hc]
    rfl
  · exact hinv
  · show st.store.vertices ++ [v] =
      (st.store.submeshes.map fun sm => sm.vertices).flatten ++
        optVerts (some { sm with vertices := sm.vertices ++ [v] })
    have hov : optVerts st.current = sm.vertices := by
      have := optVerts_applyHints lines i st.current
      rw [hac] at this
      exact this.symm
    rw [hinv, hov]
    show ((st.store.submeshes.map fun sm => sm.vertices).flatten ++ sm.vertices) ++ [v] =
      (st.store.submeshes.map fun sm => sm.vertices).flatten ++ (sm.vertices ++ [v])
    rw [List.append_assoc]
  · show st.store.vertices =
      (st.store.submeshes.map fun sm => sm.vertices).flatten ++
        optVerts (some { sm with faces := sm.faces ++ [f] })
    have hov : optVerts st.current = sm.vertices := by
      have := optVerts_applyHints lines i st.current
      rw [hac] at this
      exact this.symm
    rw [hinv, hov]
    rfl
  · show st.store.vertices =
      (st.store.submeshes.map fun sm => sm.vertices).flatten ++
        optVerts (applyHints lines i st.current)
    rw [hinv, optVerts_applyHints]

theorem map_vertices_dedup (A : List Submesh) :
    ((A.map fun sm => { sm with textures := dedupFirst sm.textures }).map
      fun sm => sm.vertices) = A.map fun sm => sm.vertices := by
  rw [List.map_map]
  rfl

theorem finalizeSt_vertices_concat (s : LoopSt)
    (hinv : s.store.vertices =
      (s.store.submeshes.map fun sm => sm.vertices).flatten ++ optVerts s.current) :
    (finalizeSt s).vertices = ((finalizeSt s).submeshes.map fun sm => sm.vertices).flatten := by
  cases hc : s.current with
  | none =>
    have h1 : (finalizeSt s).vertices = s.store.vertices := finalizeSt_vertices s
    have h2 : (finalizeSt s).submeshes = s.store.submeshes.map fun sm =>
        { sm with textures := dedupFirst sm.textures } := by
      simp [finalizeSt, hc]
    rw [h1, h2, map_vertices_dedup, hinv, hc]
    simp [optVerts]
  | some c =>
    have h1 : (finalizeSt s).vertices = s.store.vertices := finalizeSt_vertices s
    have h2 : (finalizeSt s).submeshes = (s.store.submeshes ++ [c]).map fun sm =>
        { sm with textures := dedupFirst sm.textures } := by
      simp [finalizeSt, hc]
    rw [h1, h2, map_vertices_dedup, hinv, hc]
    simp [optVerts]

/-- C9: for every parse invocation that returns normally, the global
`Model.vertices` list equals the concatenation, in `Model.submeshes`
order, of the per-submesh vertex lists.  (A normal return already implies
that every accepted 8-field row arrived while a submesh was open, since
an accepted row with no open submesh raises `TypeError`.) -/
theorem c9_vertices_concat (lines : List Line) (m : Store) (h : parse lines = .ok m) :
    m.vertices = (m.submeshes.map fun sm => sm.vertices).flatten := by
  obtain ⟨s2, hr, rfl⟩ := parse_ok_elim lines m h
  have hinv := runFrom_ok_inv lines
    (fun s => s.store.vertices =
      (s.store.submeshes.map fun sm => sm.vertices).flatten ++ optVerts s.current)
    (fun j a b hb ha => stepLine_vertices_inv lines j a b hb ha)
    lines.length 0 _ s2 hr rfl
  exact finalizeSt_vertices_concat s2 hinv

theorem mem_addIfNew_self (xs : List Line) (x : Line) : x ∈ addIfNew xs x := by
  unfold addIfNew
  split
  · assumption
  · exact List.mem_append_right _ (List.mem_singleton.mpr rfl)

theorem finalizeSt_submesh_nodup (s : LoopSt) :
    ∀ smm ∈ (finalizeSt s).submeshes, smm.textures.Nodup := by
  intro smm hmem
  have : ∀ (A : List Submesh),
      smm ∈ (A.map fun sm => { sm with textures := dedupFirst sm.textures }) →
      smm.textures.Nodup := by
    intro A hA
    obtain ⟨a, _, ha⟩ := List.mem_map.mp hA
    rw [← ha]
    exact dedupFirst_nodup _
  unfold finalizeSt at hmem
  cases hc : s.current with
  | none =>
    rw [hc] at hmem
    exact this _ hmem
  | some c =>
    rw [hc] at hmem
    exact this _ hmem

theorem runFrom_decompose (pre post : List Line) (x : Line) (st0 st' : LoopSt)
    (h : runFrom (pre ++ x :: post) (pre ++ x :: post).length 0 st0 = .ok st') :
    ∃ st st1, runFrom (pre ++ x :: post) pre.length 0 st0 = .ok st ∧
      stepLine (pre ++ x :: post) pre.length st = .ok st1 ∧
      runFrom (pre ++ x :: post) post.length (pre.length + 1) st1 = .ok st' := by
  have hlen : (pre ++ x :: post).length = pre.length + (1 + post.length) := by
    simp only [List.length_append, List.length_cons]
    omega
  rw [hlen] at h
  rw [runFrom_add (pre ++ x :: post) (1 + post.length) pre.length 0 st0
    (by simp only [List.length_append, List.length_cons]; omega)] at h
  cases hr1 : runFrom (pre ++ x :: post) pre.length 0 st0 with
  | error e =>
    rw [hr1] at h
    exact absurd h (by simp)
  | ok st =>
    rw [hr1] at h
    rw [show (1 + post.length) = post.length + 1 from by omega] at h
    rw [show 0 + pre.length = pre.length from by omega] at h
    unfold runFrom at h
    rw [if_pos (by simp only [List.length_append, List.length_cons]; omega)] at h
    cases hs : stepLine (pre ++ x :: post) pre.length st with
    | error e =>
      rw [hs] at h
      exact absurd h (by simp)
    | ok st1 =>
      rw [hs] at h
      exact ⟨st, st1, rfl, hs, h⟩

theorem line_count_eq_one (l : List Line) (a : Line) (h1 : l.Nodup) (h2 : a ∈ l) :
    l.count a = 1 := by
  induction l with
  | nil => cases h2
  | cons b t ih =>
    rw [List.count_cons]
    rcases List.mem_cons.mp h2 with rfl | hmem
    · have hnb : a ∉ t := (List.nodup_cons.mp h1).1
      rw [List.count_eq_zero_of_not_mem hnb]
      simp
    · have hba : b ≠ a := fun hba => (List.nodup_cons.mp h1).1 (hba ▸ hmem)
      rw [ih (List.nodup_cons.mp h1).2 hmem]
      simp [hba]


/-- C2 (amended): for a texture-reference line processed while the open
submesh has no vertices yet and whose cleaned name is non-empty, the
step appends the name to the submesh's and the model's texture lists
exactly when it is new (first-seen order), and in the returned Model the
name occurs exactly once in that submesh's texture list and exactly once
in the model-level texture list, both of which are duplicate-free.  (The
original claim fails when the cleaned name is empty — the `and tex`
guard drops it — see the counterexample.) -/
theorem c2_texture_once
    (pre post : List Line) (texLine : Line) (st : LoopSt) (sm : Submesh)
    (hrun : runFrom (pre ++ texLine :: post) pre.length 0
      { store := initStore, current := none } = .ok st)
    (hcur : st.current = some sm)
    (hnov : sm.vertices = [])
    (hcls : classify st.store.version.isNone texLine = .textureRef)
    (hne : cleanTex texLine ≠ []) :
    stepLine (pre ++ texLine :: post) pre.length st =
      .ok { store := { st.store with
              textures := addIfNew st.store.textures (cleanTex texLine) },
            current := some { sm with
              textures := addIfNew sm.textures (cleanTex texLine) } } ∧
    ∀ m, parse (pre ++ texLine :: post) = .ok m →
      ∃ hk : st.store.submeshes.length < m.submeshes.length,
        (m.submeshes.get ⟨st.store.submeshes.length, hk⟩).textures.count (cleanTex texLine) = 1 ∧
        m.textures.count (cleanTex texLine) = 1 ∧
        (m.submeshes.get ⟨st.store.submeshes.length, hk⟩).textures.Nodup ∧
        m.textures.Nodup := by
  have hgd : (pre ++ texLine :: post).getD pre.length [] = texLine := getD_middle pre post texLine
  have hstep : stepLine (pre ++ texLine :: post) pre.length st =
      .ok { store := { st.store with
              textures := addIfNew st.store.textures (cleanTex texLine) },
            current := some { sm with
              textures := addIfNew sm.textures (cleanTex texLine) } } := by
    have := stepLine_tex_attach (pre ++ texLine :: post) pre.length st sm hcur
      (by rw [hgd]; exact ⟨hnov, hne⟩) (by rw [hgd]; exact hcls)
    rw [hgd] at this
    exact this
  refine ⟨hstep, ?_⟩
  intro m hm
  obtain ⟨s2, hr2, rfl⟩ := parse_ok_elim _ m hm
  obtain ⟨st0, st1, hr1, hs1, hrest⟩ := runFrom_decompose pre post texLine _ s2 hr2
  have hst0 : st0 = st := by
    rw [hrun] at hr1
    injection hr1 with hr1
    exact hr1.symm
  subst hst0
  rw [hstep] at hs1
  injection hs1 with hs1
  subst hs1
  have hslot1 : slotP st0.store.submeshes.length (fun c => cleanTex texLine ∈ c.textures)
      { store := { st0.store with
          textures := addIfNew st0.store.textures (cleanTex texLine) },
        current := some { sm with
          textures := addIfNew sm.textures (cleanTex texLine) } } := by
    right
    exact ⟨rfl, _, rfl, mem_addIfNew_self _ _⟩
  have hslot2 := runFrom_ok_inv (pre ++ texLine :: post)
    (slotP st0.store.submeshes.length (fun c => cleanTex texLine ∈ c.textures))
    (fun j a b hb ha => stepLine_slotP (pre ++ texLine :: post) j
      st0.store.submeshes.length (fun c => cleanTex texLine ∈ c.textures)
      (fun smx t hx => mem_addIfNew _ _ _ hx)
      (fun smx v hx => hx)
      (fun smx f hx => hx)
      (fun smx w hw hx => hx)
      a b hb ha)
    post.length (pre.length + 1) _ s2 hrest hslot1
  have hmem2 := runFrom_ok_inv (pre ++ texLine :: post)
    (fun s => cleanTex texLine ∈ s.store.textures)
    (fun j a b hb ha => stepLine_textures_mono (pre ++ texLine :: post) j a b hb _ ha)
    post.length (pre.length + 1) _ s2 hrest (mem_addIfNew_self _ _)
  obtain ⟨hk, hmemk⟩ := finalizeSt_slot st0.store.submeshes.length
    (fun c => cleanTex texLine ∈ c.textures)
    (fun smx hx => by simpa [mem_dedupFirst] using hx) s2 hslot2
  have hndk : ((finalizeSt s2).submeshes.get ⟨st0.store.submeshes.length, hk⟩).textures.Nodup :=
    finalizeSt_submesh_nodup s2 _ (List.get_mem _ _ _)
  have hndm : (finalizeSt s2).textures.Nodup := finalizeSt_textures_nodup s2
  have hmemm : cleanTex texLine ∈ (finalizeSt s2).textures :=
    finalizeSt_textures_mem s2 _ hmem2
  exact ⟨hk, line_count_eq_one _ _ hndk hmemk,
    line_count_eq_one _ _ hndm hmemm, hndk, hndm⟩

theorem stepLine_csv_counts (lines : List Line) (i : Nat) (st : LoopSt) (sm : Submesh) (n : Nat)
    (hcur : st.current = some sm) (hcn : sm.counts = none)
    (hcls : classify st.store.version.isNone (lines.getD i []) = .csvRow n) :
    ∃ st' sm', stepLine lines i st = .ok st' ∧ st'.current = some sm' ∧
      sm'.counts = some (findCounts lines i) ∧
      st'.store.submeshes = st.store.submeshes := by
  have hah : applyHints lines i st.current =
      some { sm with counts := some (findCounts lines i) } := by
    rw [hcur]
    simp [applyHints, hcn]
  by_cases h8 : n = 8
  · subst h8
    cases hf : pyFloats? (pySplitOn ',' (lines.getD i [])) with
    | some v =>
      exact ⟨_, _, stepLine_csv8_ok lines i st v _ hcls hf hah, rfl, rfl, rfl⟩
    | none =>
      exact ⟨_, _, stepLine_csv8_bad lines i st hcls hf, hah, rfl, rfl⟩
  · by_cases h3 : n = 3
    · subst h3
      cases hi2 : pyInts? (pySplitOn ',' (lines.getD i [])) with
      | some f =>
        exact ⟨_, _, stepLine_csv3_ok lines i st f _ hcls hi2 hah, rfl, rfl, rfl⟩
      | none =>
        exact ⟨_, _, stepLine_csv3_bad lines i st hcls hi2, hah, rfl, rfl⟩
    · exact ⟨_, _, stepLine_csv_other lines i st n hcls h8 h3, hah, rfl, rfl⟩

/-- C3 (amended): on the first CSV-classified row after a submesh opens,
while its hint keys are still absent, the parser stores
`findCounts lines i` — the scan over the window from `max(0, i-6)` up to
but excluding `min(i+3, len(lines))`, i.e. from 6 lines before through
TWO lines after the row (not three, as originally claimed: the Python
`range` upper bound is exclusive) — taking the integer fields 0 and 2 of
the first line with at least 4 comma fields, or recording both hints as
absent (`some none`) when no line matches; the stored value is never
recomputed and reaches the submesh in the returned Model unchanged. -/
theorem c3_count_hints
    (pre post : List Line) (csvLine : Line) (st : LoopSt) (sm : Submesh) (n : Nat)
    (hrun : runFrom (pre ++ csvLine :: post) pre.length 0
      { store := initStore, current := none } = .ok st)
    (hcur : st.current = some sm)
    (hcn : sm.counts = none)
    (hcls : classify st.store.version.isNone csvLine = .csvRow n) :
    (∃ st' sm', stepLine (pre ++ csvLine :: post) pre.length st = .ok st' ∧
      st'.current = some sm' ∧
      sm'.counts = some (findCounts (pre ++ csvLine :: post) pre.length)) ∧
    ∀ m, parse (pre ++ csvLine :: post) = .ok m →
      ∃ hk : st.store.submeshes.length < m.submeshes.length,
        (m.submeshes.get ⟨st.store.submeshes.length, hk⟩).counts =
          some (findCounts (pre ++ csvLine :: post) pre.length) := by
  have hgd : (pre ++ csvLine :: post).getD pre.length [] = csvLine := getD_middle pre post csvLine
  obtain ⟨st', sm', hstep, hcur', hcn', hsub'⟩ :=
    stepLine_csv_counts (pre ++ csvLine :: post) pre.length st sm n hcur hcn
      (by rw [hgd]; exact hcls)
  refine ⟨⟨st', sm', hstep, hcur', hcn'⟩, ?_⟩
  intro m hm
  obtain ⟨s2, hr2, rfl⟩ := parse_ok_elim _ m hm
  obtain ⟨st0, st1, hr1, hs1, hrest⟩ := runFrom_decompose pre post csvLine _ s2 hr2
  have hst0 : st0 = st := by
    rw [hrun] at hr1
    injection hr1 with hr1
    exact hr1.symm
  subst hst0
  rw [hstep] at hs1
  injection hs1 with hs1
  subst hs1
  have hslot1 : slotP st0.store.submeshes.length
      (fun c => c.counts = some (findCounts (pre ++ csvLine :: post) pre.length)) st' := by
    right
    rw [hsub']
    exact ⟨rfl, sm', hcur', hcn'⟩
  have hslot2 := runFrom_ok_inv (pre ++ csvLine :: post)
    (slotP st0.store.submeshes.length
      (fun c => c.counts = some (findCounts (pre ++ csvLine :: post) pre.length)))
    (fun j a b hb ha => stepLine_slotP (pre ++ csvLine :: post) j
      st0.store.submeshes.length
      (fun c => c.counts = some (findCounts (pre ++ csvLine :: post) pre.length))
      (fun smx t hx => hx)
      (fun smx v hx => hx)
      (fun smx f hx => hx)
      (fun smx w hw hx => by rw [hx] at hw; exact absurd hw (by simp))
      a b hb ha)
    post.length (pre.length + 1) _ s2 hrest hslot1
  obtain ⟨hk, hck⟩ := finalizeSt_slot st0.store.submeshes.length
    (fun c => c.counts = some (findCounts (pre ++ csvLine :: post) pre.length))
    (fun smx hx => hx) s2 hslot2
  exact ⟨hk, hck⟩

theorem classify_inv_csv (vn : Bool) (l : Line) (n : Nat)
    (h : classify vn l = .csvRow n) : (pySplitOn ',' l).length = n := by
  unfold classify at h
  split at h
  · exact absurd h (by simp)
  · split at h
    · exact absurd h (by simp)
    · split at h
      · exact absurd h (by simp)
      · split at h
        · exact absurd h (by simp)
        · split at h
          · exact absurd h (by simp)
          · injection h

theorem mapO_length {γ : Type} (f : Line → Option γ) (parts : List Line) (v : List γ)
    (h : mapO f parts = some v) : v.length = parts.length := by
  induction parts generalizing v with
  | nil =>
    simp only [mapO, Option.some.injEq] at h
    rw [← h]
    rfl
  | cons p ps ih =>
    unfold mapO at h
    cases hf : f p with
    | none => rw [hf] at h; exact absurd h (by simp)
    | some y =>
      rw [hf] at h
      cases hm : mapO f ps with
      | none => rw [hm] at h; exact absurd h (by simp)
      | some ys =>
        rw [hm] at h
        simp only [Option.some.injEq] at h
        rw [← h]
        simp [ih ys hm]

theorem applyHints_shapeOk (lines : List Line) (i : Nat) (cur : Option Submesh) (sm : Submesh)
    (hac : applyHints lines i cur = some sm)
    (hP : ∀ c, cur = some c →
      (∀ v ∈ c.vertices, v.length = 8) ∧ (∀ f ∈ c.faces, f.length = 3)) :
    (∀ v ∈ sm.vertices, v.length = 8) ∧ (∀ f ∈ sm.faces, f.length = 3) := by
  rcases applyHints_shape lines i cur with heq | ⟨sm0, hsm0, hcn, heq⟩
  · rw [heq] at hac
    exact hP sm hac
  · rw [heq] at hac
    injection hac with hac
    obtain ⟨h1, h2⟩ := hP sm0 hsm0
    rw [← hac]
    exact ⟨h1, h2⟩

theorem parse_shape (lines : List Line) (m : Store) (h : parse lines = .ok m) :
    ∀ smm ∈ m.submeshes,
      (∀ v ∈ smm.vertices, v.length = 8) ∧ (∀ f ∈ smm.faces, f.length = 3) := by
  obtain ⟨s2, hr, rfl⟩ := parse_ok_elim lines m h
  have hstep : ∀ j s s', stepLine lines j s = .ok s' →
      ((∀ smm ∈ s.store.submeshes,
          (∀ v ∈ smm.vertices, v.length = 8) ∧ (∀ f ∈ smm.faces, f.length = 3)) ∧
        (∀ c, s.current = some c →
          (∀ v ∈ c.vertices, v.length = 8) ∧ (∀ f ∈ c.faces, f.length = 3))) →
      ((∀ smm ∈ s'.store.submeshes,
          (∀ v ∈ smm.vertices, v.length = 8) ∧ (∀ f ∈ smm.faces, f.length = 3)) ∧
        (∀ c, s'.current = some c →
          (∀ v ∈ c.vertices, v.length = 8) ∧ (∀ f ∈ c.faces, f.length = 3))) := by
    intro j s s' hok hp
    obtain ⟨hsub, hcur⟩ := hp
    rcases stepLine_ok_shape lines j s s' hok with
      rfl | ⟨-, rfl⟩ | ⟨-, c, hc, rfl⟩ | ⟨-, hc, rfl⟩ | rfl | ⟨sm, hc, rfl⟩ | ⟨hc, rfl⟩ |
      ⟨v, sm, hac, hcls, hf, rfl⟩ | ⟨f, sm, hac, hcls, hi2, rfl⟩ | rfl
    · exact ⟨hsub, hcur⟩
    · exact ⟨hsub, hcur⟩
    · refine ⟨?_, ?_⟩
      · intro smm hmem
        rcases List.mem_append.mp hmem with hmem | hmem
        · exact hsub smm hmem
        · rw [List.mem_singleton.mp hmem]
          exact hcur c hc
      · intro c0 hc0
        injection hc0 with hc0
        rw [← hc0]
        exact ⟨(by intro v hv; cases hv), (by intro f hf; cases hf)⟩
    · refine ⟨hsub, ?_⟩
      intro c0 hc0
      injection hc0 with hc0
      rw [← hc0]
      exact ⟨(by intro v hv; cases hv), (by intro f hf; cases hf)⟩
    · exact ⟨hsub, hcur⟩
    · refine ⟨hsub, ?_⟩
      intro c0 hc0
      injection hc0 with hc0
      rw [← hc0]
      exact hcur sm hc
    · exact ⟨hsub, hcur⟩
    · refine ⟨hsub, ?_⟩
      intro c0 hc0
      injection hc0 with hc0
      rw [← hc0]
      obtain ⟨h1, h2⟩ := applyHints_shapeOk lines j s.current sm hac hcur
      refine ⟨?_, h2⟩
      intro w hw
      rcases List.mem_append.mp hw with hw | hw
      · exact h1 w hw
      · rw [List.mem_singleton.mp hw]
        have hlen8 : (pySplitOn ',' (lines.getD j [])).length = 8 :=
          classify_inv_csv _ _ _ hcls
        rw [mapO_length pyFloat? _ v hf, hlen8]
    · refine ⟨hsub, ?_⟩
      intro c0 hc0
      injection hc0 with hc0
      rw [← hc0]
      obtain ⟨h1, h2⟩ := applyHints_shapeOk lines j s.current sm hac hcur
      refine ⟨h1, ?_⟩
      intro w hw
      rcases List.mem_append.mp hw with hw | hw
      · exact h2 w hw
      · rw [List.mem_singleton.mp hw]
        have hlen3 : (pySplitOn ',' (lines.getD j [])).length = 3 :=
          classify_inv_csv _ _ _ hcls
        rw [mapO_length pyInt? _ f hi2, hlen3]
    · refine ⟨hsub, ?_⟩
      intro c0 hc0
      exact applyHints_shapeOk lines j s.current c0 hc0 hcur
  have hinv := runFrom_ok_inv lines _ hstep lines.length 0 _ s2 hr
    ⟨(by intro smm hmem; cases hmem), (by intro c hc; cases hc)⟩
  obtain ⟨hsub2, hcur2⟩ := hinv
  intro smm hmem
  have core : ∀ (A : List Submesh),
      (∀ a ∈ A, (∀ v ∈ a.vertices, v.length = 8) ∧ (∀ f ∈ a.faces, f.length = 3)) →
      smm ∈ (A.map fun sm => { sm with textures := dedupFirst sm.textures }) →
      (∀ v ∈ smm.vertices, v.length = 8) ∧ (∀ f ∈ smm.faces, f.length = 3) := by
    intro A hA hmem
    obtain ⟨a, ha, haeq⟩ := List.mem_map.mp hmem
    rw [← haeq]
    exact hA a ha
  unfold finalizeSt at hmem
  cases hc : s2.current with
  | none =>
    rw [hc] at hmem
    exact core _ hsub2 hmem
  | some c =>
    rw [hc] at hmem
    refine core _ ?_ hmem
    intro a ha
    rcases List.mem_append.mp ha with ha | ha
    · exact hsub2 a ha
    · rw [List.mem_singleton.mp ha]
      exact hcur2 c hc

theorem faces_filterMap_gen (g : Int → Int → Int → ObjItem) (faces : List (List Int))
    (h3 : ∀ f ∈ faces, f.length = 3) :
    (faces.filterMap fun f =>
      match f with
      | [a, b, c] => some (g a b c)
      | _ => none) =
    faces.map fun f => g (f.getD 0 0) (f.getD 1 0) (f.getD 2 0) := by
  induction faces with
  | nil => rfl
  | cons f fs ih =>
    obtain ⟨a, b, c, rfl⟩ := List.length_eq_three.mp (h3 f (List.mem_cons_self f fs))
    rw [List.filterMap_cons, List.map_cons]
    simp only
    rw [ih fun g hg => h3 g (List.mem_cons_of_mem _ hg)]
    rfl

theorem exportSubmesh_spec (off : Nat) (sm : Submesh)
    (hne : sm.vertices ≠ [])
    (h8 : ∀ v ∈ sm.vertices, v.length = 8)
    (h3 : ∀ f ∈ sm.faces, f.length = 3) :
    exportSubmesh off sm = .ok
      (ObjItem.objName sm.name ::
        (sm.vertices.map (fun v => ObjItem.vPos (v.getD 0 fzero) (v.getD 1 fzero) (v.getD 2 fzero)) ++
         (sm.vertices.map fun v => ObjItem.vt (v.getD 6 fzero) (oneMinusF (v.getD 7 fzero))) ++
         sm.faces.map fun f =>
           ObjItem.faceTex (f.getD 0 0 + 1 + off) (f.getD 1 0 + 1 + off)
             (f.getD 2 0 + 1 + off))) := by
  cases hv : sm.vertices with
  | nil => exact absurd hv hne
  | cons v0 rest =>
    have hlen0 : v0.length = 8 := h8 v0 (by rw [hv]; exact List.mem_cons_self _ _)
    have hall : (rest.all fun w => w.length = v0.length) = true := by
      refine List.all_eq_true.mpr ?_
      intro w hw
      have h1 : w.length = 8 := h8 w (by rw [hv]; exact List.mem_cons_of_mem v0 hw)
      simp [h1, hlen0]
    have hrl : rowLen? sm.vertices = some 8 := by
      rw [hv]
      show (if (rest.all fun w => w.length = v0.length) = true
        then some v0.length else none) = some 8
      rw [if_pos hall, hlen0]
    simp only [exportSubmesh, hrl]
    rw [if_neg (by omega : ¬ (8 : Nat) < 3)]
    rw [if_pos (by omega : (8 : Nat) ≤ 8)]
    rw [faces_filterMap_gen _ sm.faces h3]
    simp [hv, List.append_assoc]

theorem exportGo_spec (subs : List Submesh) : ∀ off : Nat,
    (∀ smm ∈ subs, smm.vertices ≠ [] ∧
      (∀ v ∈ smm.vertices, v.length = 8) ∧ (∀ f ∈ smm.faces, f.length = 3)) →
    exportGo off subs = .ok (exportSpecGo off subs) := by
  induction subs with
  | nil =>
    intro off _
    rfl
  | cons sm rest ih =>
    intro off hall
    obtain ⟨hne, h8, h3⟩ := hall sm (List.mem_cons_self sm rest)
    have hgoeq : exportGo off (sm :: rest) =
        (match exportSubmesh off sm with
          | .error e => .error e
          | .ok items =>
            match exportGo (off + sm.vertices.length) rest with
            | .error e => .error e
            | .ok tail => .ok (items ++ tail)) := rfl
    rw [hgoeq, exportSubmesh_spec off sm hne h8 h3,
      ih (off + sm.vertices.length) fun smm hm => hall smm (List.mem_cons_of_mem sm hm)]
    have hspeceq : exportSpecGo off (sm :: rest) =
        (ObjItem.objName sm.name ::
          (sm.vertices.map (fun v => ObjItem.vPos (v.getD 0 fzero) (v.getD 1 fzero) (v.getD 2 fzero)) ++
           (if sm.vertices.all (fun v => 8 ≤ v.length) then
             sm.vertices.map fun v => ObjItem.vt (v.getD 6 fzero) (oneMinusF (v.getD 7 fzero))
            else []) ++
           sm.faces.map fun f =>
             if sm.vertices.all (fun v => 8 ≤ v.length) then
               ObjItem.faceTex (f.getD 0 0 + 1 + off) (f.getD 1 0 + 1 + off)
                 (f.getD 2 0 + 1 + off)
             else
               ObjItem.facePlain (f.getD 0 0 + 1 + off) (f.getD 1 0 + 1 + off)
                 (f.getD 2 0 + 1 + off))) ++
          exportSpecGo (off + sm.vertices.length) rest := rfl
    have hUV : (sm.vertices.all fun v => decide (8 ≤ v.length)) = true := by
      refine List.all_eq_true.mpr ?_
      intro v hvm
      simp [h8 v hvm]
    rw [hspeceq, hUV]
    simp

/-- C8 (amended): for every parsed Model in which every submesh has at
least one vertex, the OBJ exporter emits submeshes in `Model.submeshes`
order, writing for each submesh its vertex positions from fields 0..2,
its texture coordinates from fields 6 and 7 with the V coordinate
flipped as `1 - v` (parsed vertices always have exactly 8 fields), and
each triangular face as the stored zero-based indices plus one plus the
cumulative vertex count of all previously emitted submeshes — exactly
the output described by `exportSpec`, which is built from the claim's
words.  (The original claim fails for a parsed Model containing a
submesh with no vertices: `np.array([]).shape[1]` raises `IndexError`;
see the counterexample.) -/
theorem c8_export_spec (lines : List Line) (m : Store) (h : parse lines = .ok m)
    (hne : ∀ smm ∈ m.submeshes, smm.vertices ≠ []) :
    exportObj m = .ok (exportSpec m) := by
  have hshape := parse_shape lines m h
  unfold exportObj exportSpec
  rw [exportGo_spec m.submeshes 0 fun smm hm => ⟨hne smm hm, hshape smm hm⟩]
  rfl

theorem applyHints_eraseHints (lines : List Line) (i : Nat) (cur : Option Submesh) :
    (applyHints lines i cur).map eraseHints = cur.map eraseHints := by
  rcases applyHints_shape lines i cur with heq | ⟨sm, hsm, hcn, heq⟩
  · rw [heq]
  · rw [heq, hsm]
    rfl

/-- C5 (amended): with a fresh `SMFParser()` per invocation — the usage
of every caller in the repository — the parse result is a function of
the input alone, so parsing identical input twice yields structurally
equal Models.  (The original claim fails for a reused instance: `parse`
never resets the `self.*` fields, so a second call on the same instance
starts from the first call's accumulated state; see the
counterexample.) -/
theorem c5_fresh_instance_pure (l1 l2 : List Line) (h : l1 = l2) :
    parseFrom initStore l1 = parseFrom initStore l2 := by
  rw [h]

/-- C6 (amended): a comma-split row with exactly 8 fields in which some
field fails to parse as a number is discarded whole — no partial vertex
reaches any list and parsing continues with the next line — and rows
splitting into 7 or 9 fields are likewise skipped without appending any
vertex or face; in both cases every instance field (`vertices`,
`submeshes`, `textures`, `version`, `header`) is untouched, and the open
submesh can change only in its count-hint keys, which such a row may
resolve (the part of the original claim that fails: a 7- or 9-field row
is not entirely without effect on the Model; see the counterexample). -/
theorem c6_malformed_rows (lines : List Line) (i : Nat) (st : LoopSt) (n : Nat)
    (hcls : classify st.store.version.isNone (lines.getD i []) = .csvRow n)
    (hbad : (n = 8 ∧ pyFloats? (pySplitOn ',' (lines.getD i [])) = none) ∨ n = 7 ∨ n = 9) :
    ∃ st', stepLine lines i st = .ok st' ∧ st'.store = st.store ∧
      st'.current.map eraseHints = st.current.map eraseHints := by
  rcases hbad with ⟨h8, hf⟩ | h7 | h9
  · subst h8
    exact ⟨_, stepLine_csv8_bad lines i st hcls hf, rfl, applyHints_eraseHints lines i st.current⟩
  · subst h7
    exact ⟨_, stepLine_csv_other lines i st 7 hcls (by omega) (by omega), rfl,
      applyHints_eraseHints lines i st.current⟩
  · subst h9
    exact ⟨_, stepLine_csv_other lines i st 9 hcls (by omega) (by omega), rfl,
      applyHints_eraseHints lines i st.current⟩

/-- C7 (amended): the classifier applies its predicates in the fixed
source order — header prefix, then version candidate, then submesh
start, then vertex marker, then texture reference, then CSV splitting
(this order is the definition of `classify`).  Consequently a line
containing the texture-file marker (with or without commas) is
classified TextureRef provided no earlier predicate claims it: it must
not start with the header token and must not start with `v`/`V` — the
marker's dot already rules out the all-digit and all-alphabetic
branches — and an all-digit line is never classified as a submesh name.
(The original claim's unconditional "is classified TextureRef" fails for
marker lines starting with `v`/`V`, which the earlier VertexMarker
predicate consumes; see the counterexample.) -/
theorem c7_classification_order :
    (∀ (vn : Bool) (l : Line), containsTIF l = true →
      pyStartsWith c3dTag l = false → startsLowerV l = false →
      classify vn l = .textureRef) ∧
    (∀ (vn : Bool) (l : Line), pyIsDigit l = true → classify vn l ≠ .submeshStart) :=
  ⟨fun vn l ht hc3 hv => classify_textureRef_of vn l ht hc3 hv,
   fun vn l hd => classify_digit_not_submesh vn l hd⟩

/-- C1 counterexample: the input consists of a single accepted 8-field
numeric row and contains no SubmeshStart line, yet parse does not return
a Model at all — `current_submesh["vertices"].append(v)` raises
`TypeError` because `current_submesh` is `None` and the surrounding
`except ValueError` does not catch it — so the row never reaches the
global vertex list, contradicting the claim. -/
theorem c1_counterexample :
    parse [(r"1.0,2,3,4,5,6,7,8").toList] = .error PyErr.typeError := by
  decide

/-- C2 counterexample: the line `.TIF,` is classified as a texture
reference and appears before the first vertex row of the open submesh
`Body`, but its cleaned texture filename is the empty string, which the
`and tex` guard drops: it appears zero times — not exactly once — in
both the submesh's and the model's texture lists. -/
theorem c2_counterexample :
    classify true ((r".TIF,").toList) = .textureRef ∧
    cleanTex ((r".TIF,").toList) = [] ∧
    (parse [(r"Body").toList, (r".TIF,").toList, (r"1,2,3,4,5,6,7,8").toList]).map
      (fun m => (m.submeshes.map fun sm => sm.textures, m.textures)) =
      .ok ([[]], []) := by
  decide

/-- C3 counterexample: the first CSV row after `Body` opens is at index
1; the only line whose comma split has at least 4 fields with integer
fields 0 and 2 sits at index 4 = 1 + 3, exactly 3 lines after the row.
The claim's window ("through 3 lines after") would resolve the hints to
(10, 20), but the code's `range(max(0, i-6), min(i+3, len(lines)))`
stops at index i+2, so both hints are recorded as absent
(`some none`). -/
theorem c3_counterexample :
    (pySplitOn ',' ((r"10,5,20,4").toList)).length = 4 ∧
    pyInt? ((pySplitOn ',' ((r"10,5,20,4").toList)).getD 0 []) = some 10 ∧
    pyInt? ((pySplitOn ',' ((r"10,5,20,4").toList)).getD 2 []) = some 20 ∧
    (parse [(r"Body").toList, (r"a,b").toList, (r"c,d").toList, (r"e,f").toList,
      (r"10,5,20,4").toList]).map (fun m => m.submeshes.map fun sm => sm.counts) =
      .ok [some none] := by
  decide

/-- C4 counterexample: the input has no all-digit line before its (only)
submesh start — the digit line `7` comes after `Body` — yet the parser
still captures version 7, because the version branch has no
before-any-submesh condition.  Under the claim the version would remain
absent. -/
theorem c4_counterexample :
    pyIsAlpha ((r"Body").toList) = true ∧
    pyIsDigit ((r"7").toList) = true ∧
    (parse [(r"Body").toList, (r"7").toList]).map (fun m => m.version) = .ok (some 7) := by
  decide

/-- C5 counterexample: running `parse` twice on the same input with the
same `SMFParser` instance (the second call starts from the instance
state the first call left behind) yields a different Model than the
first call — the accumulated `self.vertices`/`self.submeshes` carry
over — refuting "no mutable state carries over from one parse invocation
to the next". -/
theorem c5_counterexample :
    ((parseFrom initStore [(r"Body").toList, (r"1,2,3,4,5,6,7,8").toList]).bind fun s1 =>
      parseFrom s1 [(r"Body").toList, (r"1,2,3,4,5,6,7,8").toList]) ≠
    parseFrom initStore [(r"Body").toList, (r"1,2,3,4,5,6,7,8").toList] := by
  decide

/-- C6 counterexample: a row splitting into 7 comma fields is the first
CSV row after `Body` opens; it is skipped as geometry but still
resolves the submesh's count hints to (10, 20) — whereas parsing without
that row leaves the hint keys absent — so the row does modify the
Model. -/
theorem c6_counterexample :
    (pySplitOn ',' ((r"10,5,20,4,a,b,c").toList)).length = 7 ∧
    (parse [(r"Body").toList, (r"10,5,20,4,a,b,c").toList]).map
      (fun m => m.submeshes.map fun sm => sm.counts) = .ok [some (some (10, 20))] ∧
    (parse [(r"Body").toList]).map (fun m => m.submeshes.map fun sm => sm.counts) =
      .ok [none] := by
  decide

/-- C7 counterexample: the line `v,a.TIF` contains the texture-file
marker together with a comma, yet it is classified VertexMarker — not
TextureRef — because the `v`/`V` predicate is tested first; accordingly
its texture name is never recorded. -/
theorem c7_counterexample :
    containsTIF ((r"v,a.TIF").toList) = true ∧
    classify true ((r"v,a.TIF").toList) = .vertexMarker ∧
    (parse [(r"Body").toList, (r"v,a.TIF").toList]).map (fun m => m.textures) = .ok [] := by
  decide

/-- C8 counterexample: parsing `["Body"]` yields a Model with one
submesh whose vertex list is empty; on that Model the exporter raises
`IndexError` at `verts.shape[1]` (an empty `np.array` has a
one-component shape) instead of emitting the submesh. -/
theorem c8_counterexample :
    (parse [(r"Body").toList]).map exportObj = .ok (.error PyErr.indexError) := by
  decide

theorem oneMinusF_toRat (x : FVal) : toRat (oneMinusF x) = 1 - toRat x := by
  unfold toRat oneMinusF
  have h10 : ((10 : ℚ) ^ x.den) ≠ 0 := by positivity
  field_simp

/-- Witness for C1's amended theorem at a concrete input with no
alphabetic line. -/
theorem c1_witness :
    (∀ l ∈ [(r"C3DModel").toList, (r"7").toList, (r"a,b").toList], pyIsAlpha l = false) ∧
    parse [(r"C3DModel").toList, (r"7").toList, (r"a,b").toList] = .ok
      { vertices := [], submeshes := [], textures := [], version := some 7,
        headerType := true } ∧
    (({ vertices := [], submeshes := [], textures := [], version := some 7,
        headerType := true } : Store).submeshes = [] ∧
     ({ vertices := [], submeshes := [], textures := [], version := some 7,
        headerType := true } : Store).vertices = []) :=
  ⟨by decide, by decide,
    c1_no_submesh_amended [(r"C3DModel").toList, (r"7").toList, (r"a,b").toList]
      (by decide)
      { vertices := [], submeshes := [], textures := [], version := some 7,
        headerType := true }
      (by decide)⟩

/-- Witness for C2's amended theorem: the texture line `GMCJimmy.TIF`
inside the freshly opened submesh `Body`. -/
theorem c2_witness :
    (runFrom [(r"Body").toList, (r"GMCJimmy.TIF").toList, (r"1,2,3,4,5,6,7,8").toList] 1 0
      { store := initStore, current := none } = .ok
      { store := initStore,
        current := some { name := (r"Body").toList, vertices := [], faces := [],
                          textures := [], counts := none } }) ∧
    cleanTex ((r"GMCJimmy.TIF").toList) ≠ [] ∧
    (stepLine [(r"Body").toList, (r"GMCJimmy.TIF").toList, (r"1,2,3,4,5,6,7,8").toList] 1
      { store := initStore,
        current := some { name := (r"Body").toList, vertices := [], faces := [],
                          textures := [], counts := none } } =
      .ok { store := { initStore with
              textures := addIfNew initStore.textures (cleanTex ((r"GMCJimmy.TIF").toList)) },
            current := some { name := (r"Body").toList, vertices := [], faces := [],
                              textures := addIfNew ([] : List Line)
                                (cleanTex ((r"GMCJimmy.TIF").toList)),
                              counts := none } } ∧
     ∀ m, parse [(r"Body").toList, (r"GMCJimmy.TIF").toList, (r"1,2,3,4,5,6,7,8").toList] =
        .ok m →
      ∃ hk : 0 < m.submeshes.length,
        (m.submeshes.get ⟨0, hk⟩).textures.count (cleanTex ((r"GMCJimmy.TIF").toList)) = 1 ∧
        m.textures.count (cleanTex ((r"GMCJimmy.TIF").toList)) = 1 ∧
        (m.submeshes.get ⟨0, hk⟩).textures.Nodup ∧
        m.textures.Nodup) :=
  ⟨by decide, by decide,
    c2_texture_once [(r"Body").toList] [(r"1,2,3,4,5,6,7,8").toList] ((r"GMCJimmy.TIF").toList)
      { store := initStore,
        current := some { name := (r"Body").toList, vertices := [], faces := [],
                          textures := [], counts := none } }
      { name := (r"Body").toList, vertices := [], faces := [], textures := [], counts := none }
      (by decide) (by decide) (by decide) (by decide) (by decide)⟩

/-- Witness for C3's amended theorem: the 4-field row right after `Body`
opens resolves the hints to (10, 20). -/
theorem c3_witness :
    (runFrom [(r"Body").toList, (r"10,5,20,4").toList] 1 0
      { store := initStore, current := none } = .ok
      { store := initStore,
        current := some { name := (r"Body").toList, vertices := [], faces := [],
                          textures := [], counts := none } }) ∧
    classify true ((r"10,5,20,4").toList) = .csvRow 4 ∧
    ((∃ st' sm', stepLine [(r"Body").toList, (r"10,5,20,4").toList] 1
        { store := initStore,
          current := some { name := (r"Body").toList, vertices := [], faces := [],
                            textures := [], counts := none } } = .ok st' ∧
        st'.current = some sm' ∧
        sm'.counts = some (findCounts [(r"Body").toList, (r"10,5,20,4").toList] 1)) ∧
     ∀ m, parse [(r"Body").toList, (r"10,5,20,4").toList] = .ok m →
      ∃ hk : 0 < m.submeshes.length,
        (m.submeshes.get ⟨0, hk⟩).counts =
          some (findCounts [(r"Body").toList, (r"10,5,20,4").toList] 1)) :=
  ⟨by decide, by decide,
    c3_count_hints [(r"Body").toList] [] ((r"10,5,20,4").toList)
      { store := initStore,
        current := some { name := (r"Body").toList, vertices := [], faces := [],
                          textures := [], counts := none } }
      { name := (r"Body").toList, vertices := [], faces := [], textures := [], counts := none }
      4 (by decide) (by decide) (by decide) (by decide)⟩

/-- Witness for C4's amended theorem. -/
theorem c4_witness :
    parse [(r"C3DModel").toList, (r"12").toList, (r"Body").toList] = .ok
      { vertices := [],
        submeshes := [{ name := (r"Body").toList, vertices := [], faces := [],
                        textures := [], counts := none }],
        textures := [], version := some 12, headerType := true } ∧
    ({ vertices := [],
       submeshes := [{ name := (r"Body").toList, vertices := [], faces := [],
                       textures := [], counts := none }],
       textures := [], version := some 12, headerType := true } : Store).version =
      ([(r"C3DModel").toList, (r"12").toList, (r"Body").toList].find? fun l =>
        pyIsDigit l).bind pyInt? :=
  ⟨by decide,
    c4_version_amended [(r"C3DModel").toList, (r"12").toList, (r"Body").toList]
      { vertices := [],
        submeshes := [{ name := (r"Body").toList, vertices := [], faces := [],
                        textures := [], counts := none }],
        textures := [], version := some 12, headerType := true }
      (by decide)⟩

/-- Witness for C5's amended theorem. -/
theorem c5_witness :
    ([(r"Body").toList] = [(r"Body").toList]) ∧
    parseFrom initStore [(r"Body").toList] = parseFrom initStore [(r"Body").toList] :=
  ⟨rfl, c5_fresh_instance_pure [(r"Body").toList] [(r"Body").toList] rfl⟩

/-- Witness for C6's amended theorem at an 8-field row whose last field
is not numeric. -/
theorem c6_witness :
    classify true ((r"1,2,3,4,5,6,7,x").toList) = .csvRow 8 ∧
    pyFloats? (pySplitOn ',' ((r"1,2,3,4,5,6,7,x").toList)) = none ∧
    (∃ st', stepLine [(r"1,2,3,4,5,6,7,x").toList] 0
        { store := initStore, current := none } = .ok st' ∧
      st'.store = ({ store := initStore, current := none } : LoopSt).store ∧
      st'.current.map eraseHints =
        ({ store := initStore, current := none } : LoopSt).current.map eraseHints) :=
  ⟨by decide, by decide,
    c6_malformed_rows [(r"1,2,3,4,5,6,7,x").toList] 0
      { store := initStore, current := none } 8 (by decide)
      (Or.inl ⟨rfl, by decide⟩)⟩

/-- Witness for C7's amended theorem. -/
theorem c7_witness :
    classify true ((r"a,GMC.TIF").toList) = .textureRef ∧
    classify false ((r"123").toList) ≠ .submeshStart :=
  ⟨c7_classification_order.1 true ((r"a,GMC.TIF").toList) (by decide) (by decide) (by decide),
   c7_classification_order.2 false ((r"123").toList) (by decide)⟩

/-- Witness for C8's amended theorem at a one-submesh model with one
vertex and one face. -/
theorem c8_witness :
    parse [(r"Body").toList, (r"1,2,3,4,5,6,7,8").toList, (r"0,1,2").toList] = .ok
      { vertices := [[⟨1, 0⟩, ⟨2, 0⟩, ⟨3, 0⟩, ⟨4, 0⟩, ⟨5, 0⟩, ⟨6, 0⟩, ⟨7, 0⟩, ⟨8, 0⟩]],
        submeshes := [{ name := (r"Body").toList,
                        vertices := [[⟨1, 0⟩, ⟨2, 0⟩, ⟨3, 0⟩, ⟨4, 0⟩, ⟨5, 0⟩, ⟨6, 0⟩,
                          ⟨7, 0⟩, ⟨8, 0⟩]],
                        faces := [[0, 1, 2]], textures := [],
                        counts := some (some (1, 3)) }],
        textures := [], version := none, headerType := false } ∧
    (∀ smm ∈ ({ vertices := [[⟨1, 0⟩, ⟨2, 0⟩, ⟨3, 0⟩, ⟨4, 0⟩, ⟨5, 0⟩, ⟨6, 0⟩, ⟨7, 0⟩, ⟨8, 0⟩]],
                submeshes := [{ name := (r"Body").toList,
                                vertices := [[⟨1, 0⟩, ⟨2, 0⟩, ⟨3, 0⟩, ⟨4, 0⟩, ⟨5, 0⟩, ⟨6, 0⟩,
                                  ⟨7, 0⟩, ⟨8, 0⟩]],
                                faces := [[0, 1, 2]], textures := [],
                                counts := some (some (1, 3)) }],
                textures := [], version := none, headerType := false } : Store).submeshes,
      smm.vertices ≠ []) ∧
    exportObj
      { vertices := [[⟨1, 0⟩, ⟨2, 0⟩, ⟨3, 0⟩, ⟨4, 0⟩, ⟨5, 0⟩, ⟨6, 0⟩, ⟨7, 0⟩, ⟨8, 0⟩]],
        submeshes := [{ name := (r"Body").toList,
                        vertices := [[⟨1, 0⟩, ⟨2, 0⟩, ⟨3, 0⟩, ⟨4, 0⟩, ⟨5, 0⟩, ⟨6, 0⟩,
                          ⟨7, 0⟩, ⟨8, 0⟩]],
                        faces := [[0, 1, 2]], textures := [],
                        counts := some (some (1, 3)) }],
        textures := [], version := none, headerType := false } = .ok (exportSpec
      { vertices := [[⟨1, 0⟩, ⟨2, 0⟩, ⟨3, 0⟩, ⟨4, 0⟩, ⟨5, 0⟩, ⟨6, 0⟩, ⟨7, 0⟩, ⟨8, 0⟩]],
        submeshes := [{ name := (r"Body").toList,
                        vertices := [[⟨1, 0⟩, ⟨2, 0⟩, ⟨3, 0⟩, ⟨4, 0⟩, ⟨5, 0⟩, ⟨6, 0⟩,
                          ⟨7, 0⟩, ⟨8, 0⟩]],
                        faces := [[0, 1, 2]], textures := [],
                        counts := some (some (1, 3)) }],
        textures := [], version := none, headerType := false }) :=
  ⟨by decide, by decide,
    c8_export_spec [(r"Body").toList, (r"1,2,3,4,5,6,7,8").toList, (r"0,1,2").toList]
      { vertices := [[⟨1, 0⟩, ⟨2, 0⟩, ⟨3, 0⟩, ⟨4, 0⟩, ⟨5, 0⟩, ⟨6, 0⟩, ⟨7, 0⟩, ⟨8, 0⟩]],
        submeshes := [{ name := (r"Body").toList,
                        vertices := [[⟨1, 0⟩, ⟨2, 0⟩, ⟨3, 0⟩, ⟨4, 0⟩, ⟨5, 0⟩, ⟨6, 0⟩,
                          ⟨7, 0⟩, ⟨8, 0⟩]],
                        faces := [[0, 1, 2]], textures := [],
                        counts := some (some (1, 3)) }],
        textures := [], version := none, headerType := false }
      (by decide) (by decide)⟩

/-- Witness for C9's theorem at a two-submesh model. -/
theorem c9_witness :
    parse [(r"Body").toList, (r"1,2,3,4,5,6,7,8").toList, (r"0,1,2").toList,
      (r"Wheel").toList, (r"8,7,6,5,4,3,2,1").toList] = .ok
      { vertices := [[⟨1, 0⟩, ⟨2, 0⟩, ⟨3, 0⟩, ⟨4, 0⟩, ⟨5, 0⟩, ⟨6, 0⟩, ⟨7, 0⟩, ⟨8, 0⟩],
                     [⟨8, 0⟩, ⟨7, 0⟩, ⟨6, 0⟩, ⟨5, 0⟩, ⟨4, 0⟩, ⟨3, 0⟩, ⟨2, 0⟩, ⟨1, 0⟩]],
        submeshes := [{ name := (r"Body").toList,
                        vertices := [[⟨1, 0⟩, ⟨2, 0⟩, ⟨3, 0⟩, ⟨4, 0⟩, ⟨5, 0⟩, ⟨6, 0⟩,
                          ⟨7, 0⟩, ⟨8, 0⟩]],
                        faces := [[0, 1, 2]], textures := [],
                        counts := some (some (1, 3)) },
                      { name := (r"Wheel").toList,
                        vertices := [[⟨8, 0⟩, ⟨7, 0⟩, ⟨6, 0⟩, ⟨5, 0⟩, ⟨4, 0⟩, ⟨3, 0⟩,
                          ⟨2, 0⟩, ⟨1, 0⟩]],
                        faces := [], textures := [],
                        counts := some (some (1, 3)) }],
        textures := [], version := none, headerType := false } ∧
    ({ vertices := [[⟨1, 0⟩, ⟨2, 0⟩, ⟨3, 0⟩, ⟨4, 0⟩, ⟨5, 0⟩, ⟨6, 0⟩, ⟨7, 0⟩, ⟨8, 0⟩],
                    [⟨8, 0⟩, ⟨7, 0⟩, ⟨6, 0⟩, ⟨5, 0⟩, ⟨4, 0⟩, ⟨3, 0⟩, ⟨2, 0⟩, ⟨1, 0⟩]],
       submeshes := [{ name := (r"Body").toList,
                       vertices := [[⟨1, 0⟩, ⟨2, 0⟩, ⟨3, 0⟩, ⟨4, 0⟩, ⟨5, 0⟩, ⟨6, 0⟩,
                         ⟨7, 0⟩, ⟨8, 0⟩]],
                       faces := [[0, 1, 2]], textures := [],
                       counts := some (some (1, 3)) },
                     { name := (r"Wheel").toList,
                       vertices := [[⟨8, 0⟩, ⟨7, 0⟩, ⟨6, 0⟩, ⟨5, 0⟩, ⟨4, 0⟩, ⟨3, 0⟩,
                         ⟨2, 0⟩, ⟨1, 0⟩]],
                       faces := [], textures := [],
                       counts := some (some (1, 3)) }],
       textures := [], version := none, headerType := false } : Store).vertices =
      (({ vertices := [[⟨1, 0⟩, ⟨2, 0⟩, ⟨3, 0⟩, ⟨4, 0⟩, ⟨5, 0⟩, ⟨6, 0⟩, ⟨7, 0⟩, ⟨8, 0⟩],
                       [⟨8, 0⟩, ⟨7, 0⟩, ⟨6, 0⟩, ⟨5, 0⟩, ⟨4, 0⟩, ⟨3, 0⟩, ⟨2, 0⟩, ⟨1, 0⟩]],
          submeshes := [{ name := (r"Body").toList,
                          vertices := [[⟨1, 0⟩, ⟨2, 0⟩, ⟨3, 0⟩, ⟨4, 0⟩, ⟨5, 0⟩, ⟨6, 0⟩,
                            ⟨7, 0⟩, ⟨8, 0⟩]],
                          faces := [[0, 1, 2]], textures := [],
                          counts := some (some (1, 3)) },
                        { name := (r"Wheel").toList,
                          vertices := [[⟨8, 0⟩, ⟨7, 0⟩, ⟨6, 0⟩, ⟨5, 0⟩, ⟨4, 0⟩, ⟨3, 0⟩,
                            ⟨2, 0⟩, ⟨1, 0⟩]],
                          faces := [], textures := [],
                          counts := some (some (1, 3)) }],
          textures := [], version := none, headerType := false } : Store).submeshes.map
        fun sm => sm.vertices).flatten :=
  ⟨by decide,
    c9_vertices_concat [(r"Body").toList, (r"1,2,3,4,5,6,7,8").toList, (r"0,1,2").toList,
      (r"Wheel").toList, (r"8,7,6,5,4,3,2,1").toList]
      { vertices := [[⟨1, 0⟩, ⟨2, 0⟩, ⟨3, 0⟩, ⟨4, 0⟩, ⟨5, 0⟩, ⟨6, 0⟩, ⟨7, 0⟩, ⟨8, 0⟩],
                     [⟨8, 0⟩, ⟨7, 0⟩, ⟨6, 0⟩, ⟨5, 0⟩, ⟨4, 0⟩, ⟨3, 0⟩, ⟨2, 0⟩, ⟨1, 0⟩]],
        submeshes := [{ name := (r"Body").toList,
                        vertices := [[⟨1, 0⟩, ⟨2, 0⟩, ⟨3, 0⟩, ⟨4, 0⟩, ⟨5, 0⟩, ⟨6, 0⟩,
                          ⟨7, 0⟩, ⟨8, 0⟩]],
                        faces := [[0, 1, 2]], textures := [],
                        counts := some (some (1, 3)) },
                      { name := (r"Wheel").toList,
                        vertices := [[⟨8, 0⟩, ⟨7, 0⟩, ⟨6, 0⟩, ⟨5, 0⟩, ⟨4, 0⟩, ⟨3, 0⟩,
                          ⟨2, 0⟩, ⟨1, 0⟩]],
                        faces := [], textures := [],
                        counts := some (some (1, 3)) }],
        textures := [], version := none, headerType := false }
      (by decide)⟩

/-- Witness for C10's theorem. -/
theorem c10_witness :
    (',' ∉ (r" tex.TIF ").toList) ∧
    cleanTex ((r"GMC").toList ++ ',' :: (r" tex.TIF ").toList) =
      pyStrip (((r" tex.TIF ").toList).filter notQuote) :=
  ⟨by decide,
    c10_clean_tex_after_last_comma ((r"GMC").toList) ((r" tex.TIF ").toList) (by decide)⟩
